import Mathlib

/-!
Verification of the batchTransfer repository.

This file contains a shallow embedding of the on-chain executor contract
`src/contracts/BatchTransfer.sol` and of the client-side batch manager
`src/batchTransactions.js`, together with theorems that check the
natural-language specification's claims against those embeddings.

Conventions for the contract model: addresses are `Nat` (the zero address
is `0`), `uint256` values are `Nat` with Solidity 0.8 checked arithmetic
made explicit (a sum reverts when it reaches `2 ^ 256`).  A revert is an
`Except.error`; since an EVM revert rolls back the whole call, an
`Except.error` result carries no state and no transfers, which models the
all-or-nothing semantics of each entry point.  External behaviour (whether
a low-level value transfer succeeds, what an ERC20 token does on
`allowance`/`transferFrom`) is supplied as explicit parameters.
-/

/-- Decidable equality for call results, used to evaluate concrete
scenarios. -/
instance exceptDecEq {e a : Type} [DecidableEq e] [DecidableEq a] :
    DecidableEq (Except e a) := fun x y =>
  match x, y with
  | .error e1, .error e2 =>
    if h : e1 = e2 then isTrue (by rw [h]) else isFalse (by intro hc; cases hc; exact h rfl)
  | .ok a1, .ok a2 =>
    if h : a1 = a2 then isTrue (by rw [h]) else isFalse (by intro hc; cases hc; exact h rfl)
  | .error _, .ok _ => isFalse (by intro hc; cases hc)
  | .ok _, .error _ => isFalse (by intro hc; cases hc)

namespace BatchTransfer

/-- Solidity 0.8 checked arithmetic reverts when a `uint256` computation
reaches `2 ^ 256`. -/
def UINT256 : Nat := 2 ^ 256

/-- Revert causes of the executor contract, one per `require` message in
`BatchTransfer.sol`, plus the checked-arithmetic overflow panic. -/
inductive SolErr where
  | lengthMismatch
  | emptyInput
  | overflow
  | valueMismatch
  | invalidRecipient
  | ethTransferFailed
  | invalidToken
  | insufficientAllowance
  | zeroAmount
  | tokenTransferFailed
  deriving Repr, DecidableEq

/-- The `MultiSendExecuted` event of `BatchTransfer.sol`:
`(sender, tokenAddress, totalAmount, recipientCount)`; `tokenAddress` is
`0` for native ETH sends. -/
structure Event where
  sender : Nat
  tokenAddress : Nat
  totalAmount : Nat
  recipientCount : Nat
  deriving Repr, DecidableEq

/-- Whether a call result is a revert. -/
def reverted {α : Type} : Except SolErr α → Bool
  | .error _ => true
  | .ok _ => false

/-- The `totalAmount` accumulation loop (`totalAmount += amounts[i]`),
with the Solidity 0.8 overflow check explicit: `none` is the overflow
panic. -/
def checkedSum : Nat → List Nat → Option Nat
  | acc, [] => some acc
  | acc, a :: rest => if acc + a < UINT256 then checkedSum (acc + a) rest else none

/-- The transfer loop of `multiSendETH`: for each `(recipient, amount)`
pair in order, require a non-zero recipient, then perform
`recipients[i].call{value: amounts[i]}("")`; whether that low-level call
succeeds is given by the oracle `callOk`.  Returns the list of performed
transfers. -/
def ethTransferLoop (callOk : Nat → Nat → Bool) : List (Nat × Nat) → Except SolErr (List (Nat × Nat))
  | [] => .ok []
  | (r, a) :: rest =>
    if r = 0 then .error .invalidRecipient
    else if callOk r a then
      match ethTransferLoop callOk rest with
      | .ok ts => .ok ((r, a) :: ts)
      | .error e => .error e
    else .error .ethTransferFailed

/-- Embedding of `BatchTransfer.multiSendETH`.  On success it returns the
performed value transfers (in order) and the emitted events. -/
def multiSendETH (callOk : Nat → Nat → Bool) (sender msgValue : Nat)
    (recipients amounts : List Nat) : Except SolErr (List (Nat × Nat) × List Event) :=
  if recipients.length ≠ amounts.length then .error .lengthMismatch
  else if recipients.length = 0 then .error .emptyInput
  else
    match checkedSum 0 amounts with
    | none => .error .overflow
    | some totalAmount =>
      if msgValue ≠ totalAmount then .error .valueMismatch
      else
        match ethTransferLoop callOk (recipients.zip amounts) with
        | .error e => .error e
        | .ok transfers => .ok (transfers, [⟨sender, 0, totalAmount, recipients.length⟩])

/-- The transfer loop of `multiSendToken`: for each `(recipient, amount)`
pair, require a non-zero recipient and a positive amount, then call
`erc20.safeTransferFrom(msg.sender, recipients[i], amounts[i])`.  The
token's behaviour is the abstract `transferFrom` acting on a token world
state `σ` (for the fixed `msg.sender → executor` pair); `none` means the
token call reverted. -/
def tokenTransferLoop {σ : Type} (transferFrom : σ → Nat → Nat → Nat → Option σ)
    (token : Nat) : σ → List (Nat × Nat) → Except SolErr σ
  | s, [] => .ok s
  | s, (r, a) :: rest =>
    if r = 0 then .error .invalidRecipient
    else if a = 0 then .error .zeroAmount
    else
      match transferFrom s token r a with
      | none => .error .tokenTransferFailed
      | some s' => tokenTransferLoop transferFrom token s' rest

/-- Embedding of `BatchTransfer.multiSendToken`.  `allowance s t` is the
token `t`'s current `allowance(msg.sender, address(this))` in world state
`s`; it is read once, before the transfer loop, exactly as in the
contract. -/
def multiSendToken {σ : Type} (allowance : σ → Nat → Nat)
    (transferFrom : σ → Nat → Nat → Nat → Option σ)
    (s : σ) (sender token : Nat) (recipients amounts : List Nat) :
    Except SolErr (σ × List Event) :=
  if token = 0 then .error .invalidToken
  else if recipients.length ≠ amounts.length then .error .lengthMismatch
  else if recipients.length = 0 then .error .emptyInput
  else
    match checkedSum 0 amounts with
    | none => .error .overflow
    | some totalAmount =>
      if allowance s token < totalAmount then .error .insufficientAllowance
      else
        match tokenTransferLoop transferFrom token s (recipients.zip amounts) with
        | .error e => .error e
        | .ok s' => .ok (s', [⟨sender, token, totalAmount, recipients.length⟩])

/-- The loop of `multiTokenTransfer`: for each `(token, amount)` pair,
require a non-zero token and a positive amount, check the allowance of
that token against that entry's amount (the allowance is re-read from the
current world state on every iteration), transfer, and emit one event
with recipient count 1. -/
def multiTokenLoop {σ : Type} (allowance : σ → Nat → Nat)
    (transferFrom : σ → Nat → Nat → Nat → Option σ)
    (sender recipient : Nat) : σ → List (Nat × Nat) → Except SolErr (σ × List Event)
  | s, [] => .ok (s, [])
  | s, (t, a) :: rest =>
    if t = 0 then .error .invalidToken
    else if a = 0 then .error .zeroAmount
    else if allowance s t < a then .error .insufficientAllowance
    else
      match transferFrom s t recipient a with
      | none => .error .tokenTransferFailed
      | some s' =>
        match multiTokenLoop allowance transferFrom sender recipient s' rest with
        | .error e => .error e
        | .ok (s'', evs) => .ok (s'', ⟨sender, t, a, 1⟩ :: evs)

/-- Embedding of `BatchTransfer.multiTokenTransfer`. -/
def multiTokenTransfer {σ : Type} (allowance : σ → Nat → Nat)
    (transferFrom : σ → Nat → Nat → Nat → Option σ)
    (s : σ) (sender recipient : Nat) (tokens amounts : List Nat) :
    Except SolErr (σ × List Event) :=
  if tokens.length ≠ amounts.length then .error .lengthMismatch
  else if tokens.length = 0 then .error .emptyInput
  else if recipient = 0 then .error .invalidRecipient
  else multiTokenLoop allowance transferFrom sender recipient s (tokens.zip amounts)

/-! Helper lemmas about the loops. -/

lemma checkedSum_eq_sum : ∀ (l : List Nat) (acc t : Nat),
    checkedSum acc l = some t → t = acc + l.sum := by
  intro l
  induction l with
  | nil => intro acc t h; simp [checkedSum] at h; simp [h.symm]
  | cons a rest ih =>
    intro acc t h
    simp only [checkedSum] at h
    split at h
    · have := ih (acc + a) t h
      simp [this]; ring
    · exact absurd h (by simp)

lemma checkedSum_of_lt : ∀ (l : List Nat) (acc : Nat),
    acc + l.sum < UINT256 → checkedSum acc l = some (acc + l.sum) := by
  intro l
  induction l with
  | nil => intro acc _; simp [checkedSum]
  | cons a rest ih =>
    intro acc h
    have h1 : acc + a + rest.sum < UINT256 := by
      simp only [List.sum_cons] at h; omega
    have h2 : acc + a < UINT256 := by omega
    simp only [checkedSum, if_pos h2]
    rw [ih (acc + a) h1]
    simp only [List.sum_cons]
    congr 1
    omega

lemma ethTransferLoop_ok_of (callOk : Nat → Nat → Bool) :
    ∀ ps : List (Nat × Nat), (∀ p ∈ ps, p.1 ≠ 0 ∧ callOk p.1 p.2 = true) →
      ethTransferLoop callOk ps = .ok ps := by
  intro ps
  induction ps with
  | nil => intro _; simp [ethTransferLoop]
  | cons p rest ih =>
    intro h
    obtain ⟨hr, hc⟩ := h p (List.mem_cons_self p rest)
    obtain ⟨r, a⟩ := p
    simp only [ethTransferLoop, if_neg hr, hc, if_pos]
    rw [ih (fun q hq => h q (List.mem_cons_of_mem _ hq))]

lemma ethTransferLoop_ok_inv (callOk : Nat → Nat → Bool) :
    ∀ (ps ts : List (Nat × Nat)), ethTransferLoop callOk ps = .ok ts →
      ts = ps ∧ ∀ p ∈ ps, p.1 ≠ 0 ∧ callOk p.1 p.2 = true := by
  intro ps
  induction ps with
  | nil => intro ts h; simp [ethTransferLoop] at h; simp [h]
  | cons p rest ih =>
    intro ts h
    obtain ⟨r, a⟩ := p
    simp only [ethTransferLoop] at h
    by_cases hr : r = 0
    · simp [hr] at h
    · rw [if_neg hr] at h
      by_cases hc : callOk r a = true
      · rw [hc, if_pos rfl] at h
        cases hrec : ethTransferLoop callOk rest with
        | error e => rw [hrec] at h; exact absurd h (by simp)
        | ok ts' =>
          rw [hrec] at h
          obtain ⟨hts', hall⟩ := ih ts' hrec
          have : ts = (r, a) :: ts' := by
            cases h; rfl
          constructor
          · rw [this, hts']
          · intro q hq
            rcases List.mem_cons.mp hq with hq | hq
            · subst hq; exact ⟨hr, hc⟩
            · exact hall q hq
      · simp only [Bool.not_eq_true] at hc
        rw [hc] at h
        simp at h

lemma tokenTransferLoop_ok_inv {σ : Type} (transferFrom : σ → Nat → Nat → Nat → Option σ)
    (token : Nat) : ∀ (ps : List (Nat × Nat)) (s s' : σ),
      tokenTransferLoop transferFrom token s ps = .ok s' →
      ∀ p ∈ ps, p.1 ≠ 0 ∧ p.2 ≠ 0 := by
  intro ps
  induction ps with
  | nil => intro s s' _ p hp; cases hp
  | cons p rest ih =>
    intro s s' h q hq
    obtain ⟨r, a⟩ := p
    simp only [tokenTransferLoop] at h
    by_cases hr : r = 0
    · simp [hr] at h
    · rw [if_neg hr] at h
      by_cases ha : a = 0
      · simp [ha] at h
      · rw [if_neg ha] at h
        cases htf : transferFrom s token r a with
        | none => rw [htf] at h; exact absurd h (by simp)
        | some s1 =>
          rw [htf] at h
          rcases List.mem_cons.mp hq with hq | hq
          · subst hq; exact ⟨hr, ha⟩
          · exact ih s1 s' h q hq

lemma multiTokenLoop_ok_events {σ : Type} (allowance : σ → Nat → Nat)
    (transferFrom : σ → Nat → Nat → Nat → Option σ) (sender recipient : Nat) :
    ∀ (ps : List (Nat × Nat)) (s s' : σ) (evs : List Event),
      multiTokenLoop allowance transferFrom sender recipient s ps = .ok (s', evs) →
      evs = ps.map (fun p => ⟨sender, p.1, p.2, 1⟩) ∧ ∀ p ∈ ps, p.1 ≠ 0 ∧ p.2 ≠ 0 := by
  intro ps
  induction ps with
  | nil =>
    intro s s' evs h
    simp [multiTokenLoop] at h
    simp [h.2.symm]
  | cons p rest ih =>
    intro s s' evs h
    obtain ⟨t, a⟩ := p
    simp only [multiTokenLoop] at h
    by_cases ht : t = 0
    · simp [ht] at h
    · rw [if_neg ht] at h
      by_cases ha : a = 0
      · simp [ha] at h
      · rw [if_neg ha] at h
        by_cases hal : allowance s t < a
        · simp [hal] at h
        · rw [if_neg hal] at h
          cases htf : transferFrom s t recipient a with
          | none => simp only [htf] at h; exact absurd h (by simp)
          | some s1 =>
            simp only [htf] at h
            cases hrec : multiTokenLoop allowance transferFrom sender recipient s1 rest with
            | error e => simp only [hrec] at h; exact absurd h (by simp)
            | ok pr =>
              obtain ⟨s2, evs2⟩ := pr
              simp only [hrec, Except.ok.injEq, Prod.mk.injEq] at h
              obtain ⟨hs, hevs⟩ := h
              obtain ⟨hevs2, hall⟩ := ih s1 s2 evs2 hrec
              constructor
              · rw [← hevs, hevs2]; simp
              · intro q hq
                rcases List.mem_cons.mp hq with hq | hq
                · subst hq; exact ⟨ht, ha⟩
                · exact hall q hq

lemma multiTokenLoop_ok_of {σ : Type} (allowance : σ → Nat → Nat)
    (transferFrom : σ → Nat → Nat → Nat → Option σ) (sender recipient : Nat)
    (htf : ∀ (s : σ) (t a : Nat), t ≠ 0 → a ≠ 0 → a ≤ allowance s t →
      ∃ s', transferFrom s t recipient a = some s' ∧ ∀ u, allowance s' u = allowance s u) :
    ∀ (ps : List (Nat × Nat)) (s : σ),
      (∀ p ∈ ps, p.1 ≠ 0 ∧ p.2 ≠ 0 ∧ p.2 ≤ allowance s p.1) →
      ∃ s', multiTokenLoop allowance transferFrom sender recipient s ps =
        .ok (s', ps.map (fun p => ⟨sender, p.1, p.2, 1⟩)) := by
  intro ps
  induction ps with
  | nil => intro s _; exact ⟨s, by simp [multiTokenLoop]⟩
  | cons p rest ih =>
    intro s h
    obtain ⟨t, a⟩ := p
    obtain ⟨ht, ha, hal⟩ := h (t, a) (List.mem_cons_self _ rest)
    dsimp only at ht ha hal
    obtain ⟨s1, htf1, hpres⟩ := htf s t a ht ha hal
    have hrest : ∀ q ∈ rest, q.1 ≠ 0 ∧ q.2 ≠ 0 ∧ q.2 ≤ allowance s1 q.1 := by
      intro q hq
      obtain ⟨h1, h2, h3⟩ := h q (List.mem_cons_of_mem _ hq)
      exact ⟨h1, h2, by rw [hpres]; exact h3⟩
    obtain ⟨s', hrec⟩ := ih s1 hrest
    refine ⟨s', ?_⟩
    simp only [multiTokenLoop, if_neg ht, if_neg ha, if_neg (Nat.not_lt.mpr hal), htf1,
      hrec, List.map_cons]

lemma exists_zip_of_left {α β : Type} :
    ∀ (l1 : List α) (l2 : List β) (a : α), l1.length = l2.length → a ∈ l1 →
      ∃ b, (a, b) ∈ l1.zip l2 := by
  intro l1
  induction l1 with
  | nil => intro l2 a _ ha; cases ha
  | cons x xs ih =>
    intro l2 a hlen ha
    cases l2 with
    | nil => simp at hlen
    | cons y ys =>
      rcases List.mem_cons.mp ha with h | h
      · exact ⟨y, by simp [h]⟩
      · obtain ⟨b, hb⟩ := ih ys a (by simpa using hlen) h
        exact ⟨b, List.mem_cons_of_mem _ hb⟩

lemma exists_zip_of_right {α β : Type} :
    ∀ (l1 : List α) (l2 : List β) (b : β), l1.length = l2.length → b ∈ l2 →
      ∃ a, (a, b) ∈ l1.zip l2 := by
  intro l1
  induction l1 with
  | nil => intro l2 b hlen hb; cases l2 <;> simp_all
  | cons x xs ih =>
    intro l2 b hlen hb
    cases l2 with
    | nil => cases hb
    | cons y ys =>
      rcases List.mem_cons.mp hb with h | h
      · exact ⟨x, by simp [h]⟩
      · obtain ⟨a, ha⟩ := ih ys b (by simpa using hlen) h
        exact ⟨a, List.mem_cons_of_mem _ ha⟩

lemma mem_of_zip {α β : Type} :
    ∀ (l1 : List α) (l2 : List β) (a : α) (b : β), (a, b) ∈ l1.zip l2 → a ∈ l1 ∧ b ∈ l2 := by
  intro l1
  induction l1 with
  | nil => intro l2 a b h; simp [List.zip] at h
  | cons x xs ih =>
    intro l2 a b h
    cases l2 with
    | nil => simp [List.zip] at h
    | cons y ys =>
      rw [List.zip_cons_cons] at h
      rcases List.mem_cons.mp h with h | h
      · simp only [Prod.mk.injEq] at h
        obtain ⟨rfl, rfl⟩ := h
        exact ⟨List.mem_cons_self _ _, List.mem_cons_self _ _⟩
      · obtain ⟨h1, h2⟩ := ih ys a b h
        exact ⟨List.mem_cons_of_mem _ h1, List.mem_cons_of_mem _ h2⟩

/-! Revert and success lemmas for `multiSendETH`. -/

lemma multiSendETH_reverts_of_length (callOk : Nat → Nat → Bool) (sender msgValue : Nat)
    (recipients amounts : List Nat) (h : recipients.length ≠ amounts.length) :
    reverted (multiSendETH callOk sender msgValue recipients amounts) = true := by
  unfold multiSendETH
  rw [if_pos h]
  rfl

lemma multiSendETH_reverts_of_empty (callOk : Nat → Nat → Bool) (sender msgValue : Nat)
    (recipients amounts : List Nat) (h : recipients.length = 0) :
    reverted (multiSendETH callOk sender msgValue recipients amounts) = true := by
  unfold multiSendETH
  by_cases h1 : recipients.length ≠ amounts.length
  · rw [if_pos h1]; rfl
  · rw [if_neg h1, if_pos h]; rfl

lemma multiSendETH_reverts_of_value (callOk : Nat → Nat → Bool) (sender msgValue : Nat)
    (recipients amounts : List Nat) (h : msgValue ≠ amounts.sum) :
    reverted (multiSendETH callOk sender msgValue recipients amounts) = true := by
  unfold multiSendETH
  by_cases h1 : recipients.length ≠ amounts.length
  · rw [if_pos h1]; rfl
  · rw [if_neg h1]
    by_cases h2 : recipients.length = 0
    · rw [if_pos h2]; rfl
    · rw [if_neg h2]
      cases hcs : checkedSum 0 amounts with
      | none => simp only [hcs]; rfl
      | some t =>
        simp only [hcs]
        have ht := checkedSum_eq_sum amounts 0 t hcs
        rw [if_pos (by omega : msgValue ≠ t)]
        rfl

lemma multiSendETH_reverts_of_zero_recipient (callOk : Nat → Nat → Bool) (sender msgValue : Nat)
    (recipients amounts : List Nat) (h : 0 ∈ recipients) :
    reverted (multiSendETH callOk sender msgValue recipients amounts) = true := by
  unfold multiSendETH
  by_cases h1 : recipients.length ≠ amounts.length
  · rw [if_pos h1]; rfl
  · rw [if_neg h1]
    rw [not_not] at h1
    by_cases h2 : recipients.length = 0
    · rw [if_pos h2]; rfl
    · rw [if_neg h2]
      cases hcs : checkedSum 0 amounts with
      | none => simp only [hcs]; rfl
      | some t =>
        simp only [hcs]
        by_cases h3 : msgValue ≠ t
        · rw [if_pos h3]; rfl
        · rw [if_neg h3]
          obtain ⟨b, hb⟩ := exists_zip_of_left recipients amounts 0 h1 h
          cases hloop : ethTransferLoop callOk (recipients.zip amounts) with
          | error e => simp only [hloop]; rfl
          | ok ts =>
            exact absurd rfl ((ethTransferLoop_ok_inv callOk _ ts hloop).2 (0, b) hb).1

lemma multiSendETH_reverts_of_call_failure (callOk : Nat → Nat → Bool) (sender msgValue : Nat)
    (recipients amounts : List Nat)
    (h : ∃ p ∈ recipients.zip amounts, callOk p.1 p.2 = false) :
    reverted (multiSendETH callOk sender msgValue recipients amounts) = true := by
  obtain ⟨p, hp, hpf⟩ := h
  unfold multiSendETH
  by_cases h1 : recipients.length ≠ amounts.length
  · rw [if_pos h1]; rfl
  · rw [if_neg h1]
    by_cases h2 : recipients.length = 0
    · rw [if_pos h2]; rfl
    · rw [if_neg h2]
      cases hcs : checkedSum 0 amounts with
      | none => simp only [hcs]; rfl
      | some t =>
        simp only [hcs]
        by_cases h3 : msgValue ≠ t
        · rw [if_pos h3]; rfl
        · rw [if_neg h3]
          cases hloop : ethTransferLoop callOk (recipients.zip amounts) with
          | error e => simp only [hloop]; rfl
          | ok ts =>
            have := ((ethTransferLoop_ok_inv callOk _ ts hloop).2 p hp).2
            rw [hpf] at this
            exact absurd this (by simp)

lemma multiSendETH_ok_of (callOk : Nat → Nat → Bool) (sender msgValue : Nat)
    (recipients amounts : List Nat)
    (h1 : recipients.length = amounts.length) (h2 : recipients.length ≠ 0)
    (h3 : msgValue = amounts.sum) (h4 : msgValue < UINT256)
    (h5 : ∀ r ∈ recipients, r ≠ 0)
    (h6 : ∀ p ∈ recipients.zip amounts, callOk p.1 p.2 = true) :
    multiSendETH callOk sender msgValue recipients amounts =
      .ok (recipients.zip amounts, [⟨sender, 0, msgValue, recipients.length⟩]) := by
  have hsum : checkedSum 0 amounts = some amounts.sum := by
    have h0 : 0 + amounts.sum < UINT256 := by omega
    simpa using checkedSum_of_lt amounts 0 h0
  have hloop : ethTransferLoop callOk (recipients.zip amounts) = .ok (recipients.zip amounts) := by
    apply ethTransferLoop_ok_of
    intro p hp
    obtain ⟨r, a⟩ := p
    have hmem := mem_of_zip recipients amounts r a hp
    exact ⟨h5 r hmem.1, h6 (r, a) hp⟩
  unfold multiSendETH
  rw [if_neg (not_not_intro h1), if_neg h2]
  simp only [hsum]
  rw [if_neg (not_not_intro h3)]
  simp only [hloop]
  rw [h3]

/-! Revert and success lemmas for `multiSendToken` and `multiTokenTransfer`. -/

lemma multiSendToken_reverts_of_allowance {σ : Type} (allowance : σ → Nat → Nat)
    (transferFrom : σ → Nat → Nat → Nat → Option σ) (s : σ) (sender token : Nat)
    (recipients amounts : List Nat) (h : allowance s token < amounts.sum) :
    reverted (multiSendToken allowance transferFrom s sender token recipients amounts) = true := by
  unfold multiSendToken
  by_cases h1 : token = 0
  · rw [if_pos h1]; rfl
  · rw [if_neg h1]
    by_cases h2 : recipients.length ≠ amounts.length
    · rw [if_pos h2]; rfl
    · rw [if_neg h2]
      by_cases h3 : recipients.length = 0
      · rw [if_pos h3]; rfl
      · rw [if_neg h3]
        cases hcs : checkedSum 0 amounts with
        | none => simp only [hcs]; rfl
        | some t =>
          simp only [hcs]
          have ht := checkedSum_eq_sum amounts 0 t hcs
          rw [if_pos (by omega : allowance s token < t)]
          rfl

lemma multiSendToken_reverts_of_zero_amount {σ : Type} (allowance : σ → Nat → Nat)
    (transferFrom : σ → Nat → Nat → Nat → Option σ) (s : σ) (sender token : Nat)
    (recipients amounts : List Nat) (h : 0 ∈ amounts) :
    reverted (multiSendToken allowance transferFrom s sender token recipients amounts) = true := by
  unfold multiSendToken
  by_cases h1 : token = 0
  · rw [if_pos h1]; rfl
  · rw [if_neg h1]
    by_cases h2 : recipients.length ≠ amounts.length
    · rw [if_pos h2]; rfl
    · rw [if_neg h2]
      rw [not_not] at h2
      by_cases h3 : recipients.length = 0
      · rw [if_pos h3]; rfl
      · rw [if_neg h3]
        cases hcs : checkedSum 0 amounts with
        | none => simp only [hcs]; rfl
        | some t =>
          simp only [hcs]
          by_cases h4 : allowance s token < t
          · rw [if_pos h4]; rfl
          · rw [if_neg h4]
            obtain ⟨r, hr⟩ := exists_zip_of_right recipients amounts 0 h2 h
            cases hloop : tokenTransferLoop transferFrom token s (recipients.zip amounts) with
            | error e => simp only [hloop]; rfl
            | ok s' =>
              exact absurd rfl (tokenTransferLoop_ok_inv transferFrom token _ s s' hloop (r, 0) hr).2

lemma multiTokenTransfer_ok_events {σ : Type} (allowance : σ → Nat → Nat)
    (transferFrom : σ → Nat → Nat → Nat → Option σ) (s : σ) (sender recipient : Nat)
    (tokens amounts : List Nat) (s' : σ) (evs : List Event)
    (h : multiTokenTransfer allowance transferFrom s sender recipient tokens amounts =
      .ok (s', evs)) :
    evs = (tokens.zip amounts).map (fun p => ⟨sender, p.1, p.2, 1⟩) := by
  unfold multiTokenTransfer at h
  by_cases h1 : tokens.length ≠ amounts.length
  · rw [if_pos h1] at h; exact absurd h (by simp)
  · rw [if_neg h1] at h
    by_cases h2 : tokens.length = 0
    · rw [if_pos h2] at h; exact absurd h (by simp)
    · rw [if_neg h2] at h
      by_cases h3 : recipient = 0
      · rw [if_pos h3] at h; exact absurd h (by simp)
      · rw [if_neg h3] at h
        exact (multiTokenLoop_ok_events allowance transferFrom sender recipient _ s s' evs h).1

lemma multiTokenTransfer_reverts_of_zero_amount {σ : Type} (allowance : σ → Nat → Nat)
    (transferFrom : σ → Nat → Nat → Nat → Option σ) (s : σ) (sender recipient : Nat)
    (tokens amounts : List Nat) (h : 0 ∈ amounts) :
    reverted (multiTokenTransfer allowance transferFrom s sender recipient tokens amounts) = true := by
  unfold multiTokenTransfer
  by_cases h1 : tokens.length ≠ amounts.length
  · rw [if_pos h1]; rfl
  · rw [if_neg h1]
    rw [not_not] at h1
    by_cases h2 : tokens.length = 0
    · rw [if_pos h2]; rfl
    · rw [if_neg h2]
      by_cases h3 : recipient = 0
      · rw [if_pos h3]; rfl
      · rw [if_neg h3]
        obtain ⟨t0, ht0⟩ := exists_zip_of_right tokens amounts 0 h1 h
        cases hloop : multiTokenLoop allowance transferFrom sender recipient s (tokens.zip amounts) with
        | error e => rfl
        | ok pr =>
          obtain ⟨s', evs⟩ := pr
          exact absurd rfl
            ((multiTokenLoop_ok_events allowance transferFrom sender recipient _ s s' evs hloop).2
              (t0, 0) ht0).2

lemma multiTokenTransfer_reverts_of_zero_token {σ : Type} (allowance : σ → Nat → Nat)
    (transferFrom : σ → Nat → Nat → Nat → Option σ) (s : σ) (sender recipient : Nat)
    (tokens amounts : List Nat) (h : 0 ∈ tokens) :
    reverted (multiTokenTransfer allowance transferFrom s sender recipient tokens amounts) = true := by
  unfold multiTokenTransfer
  by_cases h1 : tokens.length ≠ amounts.length
  · rw [if_pos h1]; rfl
  · rw [if_neg h1]
    rw [not_not] at h1
    by_cases h2 : tokens.length = 0
    · rw [if_pos h2]; rfl
    · rw [if_neg h2]
      by_cases h3 : recipient = 0
      · rw [if_pos h3]; rfl
      · rw [if_neg h3]
        obtain ⟨a0, ha0⟩ := exists_zip_of_left tokens amounts 0 h1 h
        cases hloop : multiTokenLoop allowance transferFrom sender recipient s (tokens.zip amounts) with
        | error e => rfl
        | ok pr =>
          obtain ⟨s', evs⟩ := pr
          exact absurd rfl
            ((multiTokenLoop_ok_events allowance transferFrom sender recipient _ s s' evs hloop).2
              (0, a0) ha0).1

lemma multiTokenTransfer_ok_of {σ : Type} (allowance : σ → Nat → Nat)
    (transferFrom : σ → Nat → Nat → Nat → Option σ) (s : σ) (sender recipient : Nat)
    (tokens amounts : List Nat)
    (h1 : tokens.length = amounts.length) (h2 : tokens.length ≠ 0) (h3 : recipient ≠ 0)
    (h4 : ∀ p ∈ tokens.zip amounts, p.1 ≠ 0 ∧ p.2 ≠ 0 ∧ p.2 ≤ allowance s p.1)
    (htf : ∀ (s1 : σ) (t a : Nat), t ≠ 0 → a ≠ 0 → a ≤ allowance s1 t →
      ∃ s2, transferFrom s1 t recipient a = some s2 ∧ ∀ u, allowance s2 u = allowance s1 u) :
    ∃ s', multiTokenTransfer allowance transferFrom s sender recipient tokens amounts =
      .ok (s', (tokens.zip amounts).map (fun p => ⟨sender, p.1, p.2, 1⟩)) := by
  obtain ⟨s', hloop⟩ := multiTokenLoop_ok_of allowance transferFrom sender recipient htf _ s h4
  refine ⟨s', ?_⟩
  unfold multiTokenTransfer
  rw [if_neg (not_not_intro h1), if_neg h2, if_neg h3]
  exact hloop

/-- C2: `multiSendETH` reverts whole (no partial payout, no result) when the
arrays differ in length, when they are empty, when the attached value is
not the exact sum of the amounts (which also covers a sum that overflows a
`uint256`), when any recipient is the zero address, or when any individual
low-level value transfer fails; otherwise it succeeds, performing exactly
the transfer `amounts[i]` to `recipients[i]` for every index, and emits
exactly one aggregate event carrying the total amount and the recipient
count equal to the array length.  A revert (`Except.error`) carries no
transfers, modelling the EVM's rollback of the whole call. -/
theorem multiSendETH_correct (callOk : Nat → Nat → Bool) (sender msgValue : Nat)
    (recipients amounts : List Nat) :
    (recipients.length ≠ amounts.length →
      reverted (multiSendETH callOk sender msgValue recipients amounts) = true) ∧
    (recipients.length = 0 →
      reverted (multiSendETH callOk sender msgValue recipients amounts) = true) ∧
    (msgValue ≠ amounts.sum →
      reverted (multiSendETH callOk sender msgValue recipients amounts) = true) ∧
    (0 ∈ recipients →
      reverted (multiSendETH callOk sender msgValue recipients amounts) = true) ∧
    ((∃ p ∈ recipients.zip amounts, callOk p.1 p.2 = false) →
      reverted (multiSendETH callOk sender msgValue recipients amounts) = true) ∧
    (recipients.length = amounts.length → recipients.length ≠ 0 → msgValue = amounts.sum →
      msgValue < UINT256 → (∀ r ∈ recipients, r ≠ 0) →
      (∀ p ∈ recipients.zip amounts, callOk p.1 p.2 = true) →
      multiSendETH callOk sender msgValue recipients amounts =
        .ok (recipients.zip amounts, [⟨sender, 0, msgValue, recipients.length⟩])) :=
  ⟨multiSendETH_reverts_of_length callOk sender msgValue recipients amounts,
   multiSendETH_reverts_of_empty callOk sender msgValue recipients amounts,
   multiSendETH_reverts_of_value callOk sender msgValue recipients amounts,
   multiSendETH_reverts_of_zero_recipient callOk sender msgValue recipients amounts,
   multiSendETH_reverts_of_call_failure callOk sender msgValue recipients amounts,
   fun h1 h2 h3 h4 h5 h6 =>
     multiSendETH_ok_of callOk sender msgValue recipients amounts h1 h2 h3 h4 h5 h6⟩

/-- Witness for `multiSendETH_correct`: a concrete successful call with two
recipients, and a concrete revert on a length mismatch. -/
theorem multiSendETH_correct_witness :
    multiSendETH (fun _ _ => true) 7 7 [1, 2] [3, 4] =
      .ok ([(1, 3), (2, 4)], [⟨7, 0, 7, 2⟩]) ∧
    reverted (multiSendETH (fun _ _ => true) 7 7 [1, 2] [3]) = true :=
  ⟨(multiSendETH_correct (fun _ _ => true) 7 7 [1, 2] [3, 4]).2.2.2.2.2
      (by decide) (by decide) (by decide) (by decide) (by decide) (by decide),
   (multiSendETH_correct (fun _ _ => true) 7 7 [1, 2] [3]).1 (by decide)⟩

/-- C7: `multiSendToken` checks the spender-to-executor allowance once
against the sum of all amounts and reverts whenever the current allowance
is below that sum (whatever the token would do), and any zero-amount entry
makes the whole call revert rather than being skipped: no result with a
zero entry is ever produced. -/
theorem multiSendToken_allowance_and_zero {σ : Type} (allowance : σ → Nat → Nat)
    (transferFrom : σ → Nat → Nat → Nat → Option σ) (s : σ) (sender token : Nat)
    (recipients amounts : List Nat) :
    (allowance s token < amounts.sum →
      reverted (multiSendToken allowance transferFrom s sender token recipients amounts) = true) ∧
    (0 ∈ amounts →
      reverted (multiSendToken allowance transferFrom s sender token recipients amounts) = true) :=
  ⟨multiSendToken_reverts_of_allowance allowance transferFrom s sender token recipients amounts,
   multiSendToken_reverts_of_zero_amount allowance transferFrom s sender token recipients amounts⟩

/-- Witness for `multiSendToken_allowance_and_zero`: a concrete call whose
allowance (5) is below the required sum (10) reverts, and a concrete call
containing a zero amount reverts, even though the token itself would have
accepted every transfer. -/
theorem multiSendToken_allowance_and_zero_witness :
    reverted (multiSendToken (fun (_ : Unit) _ => 5) (fun s _ _ _ => some s) () 1 2 [1] [10])
      = true ∧
    reverted (multiSendToken (fun (_ : Unit) _ => 5) (fun s _ _ _ => some s) () 1 2 [1, 3] [1, 0])
      = true :=
  ⟨(multiSendToken_allowance_and_zero (fun (_ : Unit) _ => 5) (fun s _ _ _ => some s)
      () 1 2 [1] [10]).1 (by decide),
   (multiSendToken_allowance_and_zero (fun (_ : Unit) _ => 5) (fun s _ _ _ => some s)
      () 1 2 [1, 3] [1, 0]).2 (by decide)⟩

/-- C8: for `multiTokenTransfer`, every successful call emits exactly one
event per token entry, each with recipient count 1 (never one aggregate
event); any per-entry failure (zero token address or zero amount shown
here; token-level failure and insufficient allowance revert through the
same loop) reverts the entire call; and the allowance check is per entry
against that entry's own amount, read from the current world state — so
with a token whose `transferFrom` succeeds without consuming allowance,
the call succeeds whenever each individual amount is within the allowance,
with no aggregation of the amounts of repeated token addresses. -/
theorem multiTokenTransfer_per_entry {σ : Type} (allowance : σ → Nat → Nat)
    (transferFrom : σ → Nat → Nat → Nat → Option σ) (s : σ) (sender recipient : Nat)
    (tokens amounts : List Nat) :
    (∀ (s' : σ) (evs : List Event),
      multiTokenTransfer allowance transferFrom s sender recipient tokens amounts =
        .ok (s', evs) →
      evs = (tokens.zip amounts).map (fun p => ⟨sender, p.1, p.2, 1⟩)) ∧
    (0 ∈ amounts →
      reverted (multiTokenTransfer allowance transferFrom s sender recipient tokens amounts)
        = true) ∧
    (0 ∈ tokens →
      reverted (multiTokenTransfer allowance transferFrom s sender recipient tokens amounts)
        = true) ∧
    (tokens.length = amounts.length → tokens.length ≠ 0 → recipient ≠ 0 →
      (∀ p ∈ tokens.zip amounts, p.1 ≠ 0 ∧ p.2 ≠ 0 ∧ p.2 ≤ allowance s p.1) →
      (∀ (s1 : σ) (t a : Nat), t ≠ 0 → a ≠ 0 → a ≤ allowance s1 t →
        ∃ s2, transferFrom s1 t recipient a = some s2 ∧ ∀ u, allowance s2 u = allowance s1 u) →
      ∃ s', multiTokenTransfer allowance transferFrom s sender recipient tokens amounts =
        .ok (s', (tokens.zip amounts).map (fun p => ⟨sender, p.1, p.2, 1⟩))) :=
  ⟨multiTokenTransfer_ok_events allowance transferFrom s sender recipient tokens amounts,
   multiTokenTransfer_reverts_of_zero_amount allowance transferFrom s sender recipient
     tokens amounts,
   multiTokenTransfer_reverts_of_zero_token allowance transferFrom s sender recipient
     tokens amounts,
   fun h1 h2 h3 h4 htf =>
     multiTokenTransfer_ok_of allowance transferFrom s sender recipient tokens amounts
       h1 h2 h3 h4 htf⟩

/-- Witness for `multiTokenTransfer_per_entry`: the same token address (5)
appears twice with amounts 60 and 60 under an allowance of 100 that the
token does not consume; the aggregated sum 120 exceeds the allowance, yet
the call succeeds because each entry is checked only against its own
amount, and it emits one event per entry with recipient count 1. -/
theorem multiTokenTransfer_per_entry_witness :
    100 < 60 + 60 ∧
    (∃ s' : Unit, multiTokenTransfer (fun (_ : Unit) _ => 100) (fun _ _ _ _ => some ())
      () 9 1 [5, 5] [60, 60] = .ok (s', [⟨9, 5, 60, 1⟩, ⟨9, 5, 60, 1⟩])) :=
  ⟨by decide,
   (multiTokenTransfer_per_entry (fun (_ : Unit) _ => 100) (fun _ _ _ _ => some ())
      () 9 1 [5, 5] [60, 60]).2.2.2 (by decide) (by decide) (by decide) (by decide)
      (fun _ _ _ _ _ _ => ⟨(), rfl, fun _ => rfl⟩)⟩

/-- C10: `multiSendETH` accepts zero-amount entries: with matching
non-empty arrays, non-zero recipients, attached value equal to the sum and
all low-level transfers succeeding, the presence of a zero amount does not
cause a revert — the zero-value transfer is performed like any other.  In
contrast both token entry points reject a zero amount per entry. -/
theorem multiSendETH_accepts_zero_amounts (callOk : Nat → Nat → Bool) (sender msgValue : Nat)
    (recipients amounts : List Nat)
    (h1 : recipients.length = amounts.length) (h2 : recipients.length ≠ 0)
    (h3 : msgValue = amounts.sum) (h4 : msgValue < UINT256)
    (h5 : ∀ r ∈ recipients, r ≠ 0)
    (h6 : ∀ p ∈ recipients.zip amounts, callOk p.1 p.2 = true)
    (_hzero : 0 ∈ amounts) :
    multiSendETH callOk sender msgValue recipients amounts =
      .ok (recipients.zip amounts, [⟨sender, 0, msgValue, recipients.length⟩]) ∧
    (∀ {σ : Type} (allowance : σ → Nat → Nat) (transferFrom : σ → Nat → Nat → Nat → Option σ)
      (s : σ) (sender' token : Nat) (recipients' amounts' : List Nat), 0 ∈ amounts' →
      reverted (multiSendToken allowance transferFrom s sender' token recipients' amounts')
        = true) ∧
    (∀ {σ : Type} (allowance : σ → Nat → Nat) (transferFrom : σ → Nat → Nat → Nat → Option σ)
      (s : σ) (sender' recipient : Nat) (tokens' amounts' : List Nat), 0 ∈ amounts' →
      reverted (multiTokenTransfer allowance transferFrom s sender' recipient tokens' amounts')
        = true) :=
  ⟨multiSendETH_ok_of callOk sender msgValue recipients amounts h1 h2 h3 h4 h5 h6,
   fun allowance transferFrom s sender' token recipients' amounts' hz =>
     multiSendToken_reverts_of_zero_amount allowance transferFrom s sender' token
       recipients' amounts' hz,
   fun allowance transferFrom s sender' recipient tokens' amounts' hz =>
     multiTokenTransfer_reverts_of_zero_amount allowance transferFrom s sender' recipient
       tokens' amounts' hz⟩

/-- Witness for `multiSendETH_accepts_zero_amounts`: a concrete native
multi-send containing the amount 0 succeeds, while a token multi-send with
the amount 0 reverts. -/
theorem multiSendETH_accepts_zero_amounts_witness :
    multiSendETH (fun _ _ => true) 3 5 [1, 2] [0, 5] =
      .ok ([(1, 0), (2, 5)], [⟨3, 0, 5, 2⟩]) ∧
    reverted (multiSendToken (fun (_ : Unit) _ => 1000) (fun s _ _ _ => some s) () 3 9 [1] [0])
      = true := by
  have h := multiSendETH_accepts_zero_amounts (fun _ _ => true) 3 5 [1, 2] [0, 5]
    (by decide) (by decide) (by decide) (by decide) (by decide) (by decide) (by decide)
  exact ⟨h.1, h.2.1 (fun (_ : Unit) _ => 1000) (fun s _ _ _ => some s) () 3 9 [1] [0] (by decide)⟩

end BatchTransfer

namespace BatchClient

/-!
Embedding of the client-side batch manager `src/batchTransactions.js`.
Addresses, amounts-as-typed and transaction hashes are strings; parsed
amounts are `Int` (JavaScript `BigInt`).  Network interaction (gas
estimation, balances, allowances, submission and finalization) is
supplied by an explicit environment, and each submission also returns the
ordered trace of its observable steps, so that ordering claims
(balance check before approval, approval finalization before transfer
submission) can be stated.
-/

/-- Characters accepted in the hex body of an address. -/
def isHexChar (c : Char) : Bool :=
  c.isDigit || (('a' ≤ c) && (c ≤ 'f')) || (('A' ≤ c) && (c ≤ 'F'))

/-- Model of `ethers.isAddress`: `0x` followed by 40 hex characters; a
body mixing lowercase and uppercase hex letters must additionally pass
the EIP-55 checksum validation, which is the external parameter
`checksumOk` (keccak-256 is not modelled); an all-lowercase or
all-uppercase body is accepted without a checksum test, as in ethers.
Character-level work is done on `String.data`. -/
def isAddress (checksumOk : String → Bool) (s : String) : Bool :=
  match s.data with
  | '0' :: 'x' :: body =>
    body.length == 40 && body.all isHexChar &&
      (if body.any (fun c => ('a' ≤ c) && (c ≤ 'f')) &&
          body.any (fun c => ('A' ≤ c) && (c ≤ 'F'))
       then checksumOk s else true)
  | _ => false

/-- Decimal-digit list to `Nat`. -/
def digitsToNat (l : List Char) : Nat :=
  l.foldl (fun acc c => acc * 10 + (c.toNat - 48)) 0

/-- Split a character list at the dots, as `String.splitOn "."` does. -/
def splitOnDot : List Char → List (List Char)
  | [] => [[]]
  | c :: rest =>
    if c = '.' then [] :: splitOnDot rest
    else
      match splitOnDot rest with
      | h :: t => (c :: h) :: t
      | [] => [[c]]

/-- Model of `ethers.parseUnits(value, decimals)`: an optional leading
sign, then an integer part and an optional fractional part separated by
at most one dot, at least one digit overall, and no more fractional
digits than `decimals`; the result is the scaled integer.  Malformed
input is `none` (ethers throws).  The `FixedNumber` width bound (512
bits) is not modelled. -/
def parseUnitsAux (neg : Bool) (body : List Char) (decimals : Nat) : Option Int :=
  let mk : Nat → Int := fun n => if neg then -(n : Int) else (n : Int)
  match splitOnDot body with
  | [w] =>
    if (w.length != 0) && w.all Char.isDigit then
      some (mk (digitsToNat w * 10 ^ decimals))
    else none
  | [w, f] =>
    if (w.length + f.length != 0) && w.all Char.isDigit && f.all Char.isDigit
        && decide (f.length ≤ decimals) then
      some (mk (digitsToNat w * 10 ^ decimals + digitsToNat f * 10 ^ (decimals - f.length)))
    else none
  | _ => none

/-- See `parseUnitsAux`; the sign is split off here. -/
def parseUnits (value : String) (decimals : Nat) : Option Int :=
  match value.data with
  | '-' :: rest => parseUnitsAux true rest decimals
  | ds => parseUnitsAux false ds decimals

/-- Model of `ethers.parseEther`: 18 decimals. -/
def parseEther (value : String) : Option Int := parseUnits value 18

/-- Thrown errors of the client, one constructor per throw site. -/
inductive JsErr where
  | invalidRecipient (a : String)
  | invalidToken (a : String)
  | addEthError
  | addErc20Error
  | emptyEstimate
  | emptySend
  | gasEstimationFailed
  | insufficientBalance (token : String)
  | networkError (what : String)
  | sendFailed (inner : JsErr)
  deriving Repr, DecidableEq

/-- One queued native transfer (`transactionGroups.eth` element). -/
structure EthTx where
  toAddr : String
  value : Int
  deriving Repr, DecidableEq

/-- One queued token transfer (`transactionGroups.erc20[token]` element). -/
structure TokenTx where
  toAddr : String
  value : Int
  decimals : Nat
  deriving Repr, DecidableEq

/-- `transactionGroups`; `erc20` is an insertion-ordered association
list, mirroring the JS object's string-keyed, insertion-ordered fields. -/
structure BatchState where
  eth : List EthTx
  erc20 : List (String × List TokenTx)
  deriving Repr, DecidableEq

/-- The state a fresh batch manager starts with. -/
def emptyBatch : BatchState := ⟨[], []⟩

/-- Lookup of a token group (`transactionGroups.erc20[tokenAddress]`). -/
def findGroup : List (String × List TokenTx) → String → Option (List TokenTx)
  | [], _ => none
  | (k, txs) :: rest, t => if k = t then some txs else findGroup rest t

/-- Append a transfer to an existing token group
(`transactionGroups.erc20[tokenAddress].push(...)`). -/
def pushTokenTx : List (String × List TokenTx) → String → TokenTx → List (String × List TokenTx)
  | [], t, tx => [(t, [tx])]
  | (k, txs) :: rest, t, tx =>
    if k = t then (k, txs ++ [tx]) :: rest else (k, txs) :: pushTokenTx rest t tx

/-- `addEthTransaction(to, value)`: validate the recipient, parse the
amount with 18 decimals, append.  The result is the thrown error (if any)
together with the state after the call — in JS a throw leaves the shared
`transactionGroups` exactly as it was at the point of the throw. -/
def addEthTransaction (checksumOk : String → Bool) (st : BatchState) (dest value : String) :
    Option JsErr × BatchState :=
  if !(isAddress checksumOk dest) then (some (.invalidRecipient dest), st)
  else
    match parseEther value with
    | none => (some .addEthError, st)
    | some v => (none, { st with eth := st.eth ++ [⟨dest, v⟩] })

/-- `addErc20Transaction(tokenAddress, to, value, decimals)`: validate
both addresses, then — in the source's order — create the token group if
it does not exist yet, and only then parse the amount string; a parse
failure therefore leaves the freshly created empty group behind. -/
def addErc20Transaction (checksumOk : String → Bool) (st : BatchState)
    (tokenAddress dest value : String) (decimals : Nat) : Option JsErr × BatchState :=
  if !(isAddress checksumOk tokenAddress) then (some (.invalidToken tokenAddress), st)
  else if !(isAddress checksumOk dest) then (some (.invalidRecipient dest), st)
  else
    let st1 := if (findGroup st.erc20 tokenAddress).isSome then st
               else { st with erc20 := st.erc20 ++ [(tokenAddress, [])] }
    match parseUnits value decimals with
    | none => (some .addErc20Error, st1)
    | some v =>
      (none, { st1 with erc20 := pushTokenTx st1.erc20 tokenAddress ⟨dest, v, decimals⟩ })

/-- `clearTransactions()`. -/
def clearTransactions (_ : BatchState) : BatchState := emptyBatch

/-- Number of queued token transfers across all groups. -/
def erc20Count (st : BatchState) : Nat := (st.erc20.map (fun g => g.2.length)).sum

/-- All recipient addresses, native entries first, then the token groups
in key order (the iteration order of `getBatchStatus`). -/
def allRecipients (st : BatchState) : List String :=
  st.eth.map EthTx.toAddr ++ st.erc20.flatMap (fun g => g.2.map TokenTx.toAddr)

/-- The record returned by `getBatchStatus`. -/
structure BatchStatus where
  totalTransactions : Nat
  ethTransactions : Nat
  erc20Transactions : Nat
  erc20TokenCount : Nat
  totalEthValueWei : Int
  uniqueRecipients : Nat
  deriving Repr, DecidableEq

/-- `getBatchStatus()`.  `totalEthValue` is kept in wei (the `formatEther`
display formatting is not modelled); `uniqueRecipients` is the size of the
JS `Set` of recipient strings, i.e. the number of distinct strings. -/
def getBatchStatus (st : BatchState) : BatchStatus :=
  { totalTransactions := st.eth.length + erc20Count st
    ethTransactions := st.eth.length
    erc20Transactions := erc20Count st
    erc20TokenCount := st.erc20.length
    totalEthValueWei := (st.eth.map EthTx.value).sum
    uniqueRecipients := (allRecipients st).dedup.length }

/-- ASCII lowercasing of one character. -/
def lowerChar (c : Char) : Char :=
  if ('A' ≤ c) && (c ≤ 'Z') then Char.ofNat (c.toNat + 32) else c

/-- The unique-recipient count as the specification describes it — a set
union on case-normalized recipient addresses.  Stated from the spec's
words, to be compared with `getBatchStatus`. -/
def uniqueRecipientsCaseNormalized (st : BatchState) : Nat :=
  ((allRecipients st).map (fun s => s.data.map lowerChar)).dedup.length

/-- A finalized on-chain receipt, as seen by `tx.wait()`:
`statusOk` is `receipt.status === 1`. -/
structure Receipt where
  hash : String
  blockNumber : Nat
  gasUsed : Nat
  statusOk : Bool
  deriving Repr, DecidableEq

/-- The per-transaction record the client builds from a receipt;
`success` stands for the `'success'` / `'failed'` status string. -/
structure TxRecord where
  transactionHash : String
  blockNumber : Nat
  gasUsed : Nat
  success : Bool
  recipients : Nat
  deriving Repr, DecidableEq

/-- The network environment of one submission: the prevailing gas price,
gas estimates (`none` when the node rejects the estimation call),
finalized receipts (`none` when submission or `wait()` fails), and
per-token signer balance, current spender-to-executor allowance and
whether an approval submits and finalizes successfully. -/
structure SendEnv where
  feeGasPrice : Nat
  ethEstimateGas : Option Nat
  ethSend : Option Receipt
  tokenBalance : String → Int
  tokenAllowance : String → Int
  approveOk : String → Bool
  tokenEstimateGas : String → Option Nat
  tokenSend : String → Option Receipt

/-- The `options` argument of `sendBatchTransaction`. -/
structure SendOptions where
  ethGasLimit : Option Nat
  tokenGasLimits : String → Option Nat
  gasPrice : Option Nat

/-- Calling with no options. -/
def noOptions : SendOptions := ⟨none, fun _ => none, none⟩

/-- Observable steps of a submission, in execution order. -/
inductive Action where
  | ethSubmit (gasLimit : Nat)
  | ethFinalize
  | balanceCheck (token : String)
  | approveSubmit (token : String) (amount : Int)
  | approveFinalize (token : String)
  | transferSubmit (token : String) (gasLimit : Nat)
  | transferFinalize (token : String)
  deriving Repr, DecidableEq

/-- The required total of a token group (`tokenTxs.reduce(...)`). -/
def groupTotal (txs : List TokenTx) : Int := (txs.map TokenTx.value).sum

/-- `checkAndApproveToken(tokenAddress, tokenTxs)`: check the signer's
balance against the required total, then the current allowance; when the
allowance is short, submit an approval for exactly the required total and
await its finalization before returning. -/
def checkAndApproveToken (env : SendEnv) (token : String) (txs : List TokenTx) :
    List Action × Option JsErr :=
  let total := groupTotal txs
  if env.tokenBalance token < total then
    ([.balanceCheck token], some (.insufficientBalance token))
  else if env.tokenAllowance token < total then
    if env.approveOk token then
      ([.balanceCheck token, .approveSubmit token total, .approveFinalize token], none)
    else
      ([.balanceCheck token, .approveSubmit token total], some (.networkError token))
  else ([.balanceCheck token], none)

/-- The native group's gas budget: the caller's `ethGasLimit` override,
else the estimate with the 10% buffer (`(estimate * 110n) / 100n`),
failing when the estimation call fails. -/
def ethGas (env : SendEnv) (opts : SendOptions) : Except JsErr Nat :=
  match opts.ethGasLimit with
  | some g => .ok g
  | none =>
    match env.ethEstimateGas with
    | none => .error .gasEstimationFailed
    | some g => .ok (g * 110 / 100)

/-- A token group's gas budget: the caller's `tokenGasLimits[token]`
override, else the estimate with the 10% buffer. -/
def tokenGas (env : SendEnv) (opts : SendOptions) (token : String) : Except JsErr Nat :=
  match opts.tokenGasLimits token with
  | some g => .ok g
  | none =>
    match env.tokenEstimateGas token with
    | none => .error .gasEstimationFailed
    | some g => .ok (g * 110 / 100)

/-- The native-group part of `sendBatchTransaction`: skipped when no
native entries are queued; otherwise resolve the gas budget (`ethGas`),
submit, await finalization and build the receipt record. -/
def ethStep (env : SendEnv) (opts : SendOptions) (st : BatchState) :
    List Action × Except JsErr (Option TxRecord) :=
  if st.eth.length = 0 then ([], .ok none)
  else
    match ethGas env opts with
    | .error e => ([], .error e)
    | .ok gl =>
      match env.ethSend with
      | none => ([.ethSubmit gl], .error (.networkError "eth"))
      | some r =>
        ([.ethSubmit gl, .ethFinalize],
         .ok (some ⟨r.hash, r.blockNumber, r.gasUsed, r.statusOk, st.eth.length⟩))

/-- Processing of one non-empty token group inside `sendBatchTransaction`:
`checkAndApproveToken` first, then the gas budget (`tokenGas`), then
submission and finalization of the group's `multiSendToken` call. -/
def tokenGroupStep (env : SendEnv) (opts : SendOptions) (token : String)
    (txs : List TokenTx) : List Action × Except JsErr TxRecord :=
  match checkAndApproveToken env token txs with
  | (tr, some e) => (tr, .error e)
  | (tr, none) =>
    match tokenGas env opts token with
    | .error e => (tr, .error e)
    | .ok gl =>
      match env.tokenSend token with
      | none => (tr ++ [.transferSubmit token gl], .error (.networkError token))
      | some r =>
        (tr ++ [.transferSubmit token gl, .transferFinalize token],
         .ok ⟨r.hash, r.blockNumber, r.gasUsed, r.statusOk, txs.length⟩)

/-- The token-group loop of `sendBatchTransaction`, over the groups in key
(insertion) order; empty groups are skipped; the first thrown error stops
the loop. -/
def processGroups (env : SendEnv) (opts : SendOptions) :
    List (String × List TokenTx) → List Action × Except JsErr (List (String × TxRecord))
  | [] => ([], .ok [])
  | (token, txs) :: rest =>
    if txs.length = 0 then processGroups env opts rest
    else
      match tokenGroupStep env opts token txs with
      | (tr, .error e) => (tr, .error e)
      | (tr, .ok rcd) =>
        match processGroups env opts rest with
        | (tr2, .error e) => (tr ++ tr2, .error e)
        | (tr2, .ok rcds) => (tr ++ tr2, .ok ((token, rcd) :: rcds))

/-- The aggregate result of a fully successful submission. -/
structure SendResults where
  ethTransaction : Option TxRecord
  erc20Transactions : List (String × TxRecord)
  totalTransactions : Nat
  deriving Repr, DecidableEq

/-- `sendBatchTransaction(options)`: throw `EmptyBatch` when nothing is
queued; otherwise run the native group, then the token groups.  Any error
thrown inside the try block is re-thrown wrapped
(`Failed to send batch transaction: ...`) — that is `JsErr.sendFailed` —
and the `results` object built so far is discarded.  The first component
is the trace of observable steps up to the return or throw. -/
def sendBatchTransaction (env : SendEnv) (opts : SendOptions) (st : BatchState) :
    List Action × Except JsErr SendResults :=
  if st.eth.length + erc20Count st = 0 then ([], .error .emptySend)
  else
    match ethStep env opts st with
    | (tr1, .error e) => (tr1, .error (.sendFailed e))
    | (tr1, .ok ethRec) =>
      match processGroups env opts st.erc20 with
      | (tr2, .error e) => (tr1 ++ tr2, .error (.sendFailed e))
      | (tr2, .ok tokenRecs) =>
        (tr1 ++ tr2, .ok ⟨ethRec, tokenRecs, st.eth.length + erc20Count st⟩)

/-- The eth part of the record returned by `estimateGas`. -/
structure EthGasEstimate where
  gasEstimate : Nat
  gasWithBuffer : Nat
  totalValueWei : Int
  deriving Repr, DecidableEq

/-- The record returned by `estimateGas`. -/
structure EstimateResults where
  ethTransactions : Nat
  erc20Transactions : Nat
  totalTransactions : Nat
  gasPrice : Nat
  ethEstimate : Option EthGasEstimate
  deriving Repr, DecidableEq

/-- `estimateGas(options)`: throw when nothing is queued; resolve the gas
price (caller value or the network's); when native entries exist, obtain
the simulated cost and record it with the 10% buffer
(`(estimate * 110n) / 100n`); token groups are not estimated here. -/
def estimateGas (env : SendEnv) (st : BatchState) (gasPriceOpt : Option Nat) :
    Except JsErr EstimateResults :=
  let ethN := st.eth.length
  let ercN := erc20Count st
  if ethN + ercN = 0 then .error .emptyEstimate
  else
    let gasPrice := gasPriceOpt.getD env.feeGasPrice
    if ethN ≠ 0 then
      match env.ethEstimateGas with
      | none => .error .gasEstimationFailed
      | some g =>
        .ok { ethTransactions := ethN, erc20Transactions := ercN,
              totalTransactions := ethN + ercN, gasPrice := gasPrice,
              ethEstimate := some ⟨g, g * 110 / 100, (st.eth.map EthTx.value).sum⟩ }
    else
      .ok { ethTransactions := ethN, erc20Transactions := ercN,
            totalTransactions := ethN + ercN, gasPrice := gasPrice, ethEstimate := none }

/-- The specification's cost-with-margin formula, from its words: the
mathematical ceiling of the simulated cost times 1.10. -/
def ceilTimes110 (n : Nat) : Nat := (n * 110 + 99) / 100

/-- A valid all-lowercase address: `0x` followed by 40 `a`s. -/
def addrLowerA : String := "0xaaaaaaaaaaaaaaaaaaaaaaaaaaaaaaaaaaaaaaaa"

/-- The same address with the hex letters uppercased. -/
def addrUpperA : String := "0xAAAAAAAAAAAAAAAAAAAAAAAAAAAAAAAAAAAAAAAA"

/-- Another valid address, used as a recipient. -/
def addrB : String := "0xbbbbbbbbbbbbbbbbbbbbbbbbbbbbbbbbbbbbbbbb"

/-- Another valid address, used as a token. -/
def addrT : String := "0xcccccccccccccccccccccccccccccccccccccccc"

/-- Whether a client call threw. -/
def thrown {α : Type} : Except JsErr α → Bool
  | .error _ => true
  | .ok _ => false

/-- The token an observable step belongs to (`none` for the native
group's steps). -/
def actionToken : Action → Option String
  | .ethSubmit _ => none
  | .ethFinalize => none
  | .balanceCheck t => some t
  | .approveSubmit t _ => some t
  | .approveFinalize t => some t
  | .transferSubmit t _ => some t
  | .transferFinalize t => some t

/-! Helper lemmas about the submission pipeline. -/

lemma mul110_div100 (n : Nat) : n * 110 / 100 = n + n / 10 := by
  have h1 : n * 110 / 100 = n * 11 / 10 := by
    have : n * 110 = n * 11 * 10 := by ring
    rw [this, (by norm_num : (100 : Nat) = 10 * 10), Nat.mul_div_mul_right _ _ (by norm_num)]
  rw [h1]
  have h2 : n * 11 = n / 10 * 10 * 11 + n % 10 * 11 := by
    conv_lhs => rw [← Nat.div_add_mod n 10]
    ring
  omega

lemma checkAndApproveToken_short (env : SendEnv) (token : String) (txs : List TokenTx)
    (h : env.tokenBalance token < groupTotal txs) :
    checkAndApproveToken env token txs =
      ([.balanceCheck token], some (.insufficientBalance token)) := by
  simp only [checkAndApproveToken]
  rw [if_pos h]

lemma checkAndApproveToken_approve (env : SendEnv) (token : String) (txs : List TokenTx)
    (hb : ¬ env.tokenBalance token < groupTotal txs)
    (hal : env.tokenAllowance token < groupTotal txs)
    (hap : env.approveOk token = true) :
    checkAndApproveToken env token txs =
      ([.balanceCheck token, .approveSubmit token (groupTotal txs), .approveFinalize token],
       none) := by
  simp only [checkAndApproveToken]
  rw [if_neg hb, if_pos hal, if_pos hap]

lemma checkAndApproveToken_approve_fail (env : SendEnv) (token : String) (txs : List TokenTx)
    (hb : ¬ env.tokenBalance token < groupTotal txs)
    (hal : env.tokenAllowance token < groupTotal txs)
    (hap : ¬ env.approveOk token = true) :
    checkAndApproveToken env token txs =
      ([.balanceCheck token, .approveSubmit token (groupTotal txs)],
       some (.networkError token)) := by
  simp only [checkAndApproveToken]
  rw [if_neg hb, if_pos hal, if_neg hap]

lemma checkAndApproveToken_enough (env : SendEnv) (token : String) (txs : List TokenTx)
    (hb : ¬ env.tokenBalance token < groupTotal txs)
    (hal : ¬ env.tokenAllowance token < groupTotal txs) :
    checkAndApproveToken env token txs = ([.balanceCheck token], none) := by
  simp only [checkAndApproveToken]
  rw [if_neg hb, if_neg hal]

lemma checkAndApproveToken_actions (env : SendEnv) (token : String) (txs : List TokenTx) :
    ∀ a ∈ (checkAndApproveToken env token txs).1, actionToken a = some token := by
  intro a ha
  by_cases hb : env.tokenBalance token < groupTotal txs
  · rw [checkAndApproveToken_short env token txs hb] at ha
    simp only [List.mem_singleton] at ha
    subst ha; rfl
  · by_cases hal : env.tokenAllowance token < groupTotal txs
    · by_cases hap : env.approveOk token = true
      · rw [checkAndApproveToken_approve env token txs hb hal hap] at ha
        simp only [List.mem_cons, List.mem_singleton, List.not_mem_nil, or_false] at ha
        rcases ha with rfl | rfl | rfl <;> rfl
      · rw [checkAndApproveToken_approve_fail env token txs hb hal hap] at ha
        simp only [List.mem_cons, List.mem_singleton, List.not_mem_nil, or_false] at ha
        rcases ha with rfl | rfl <;> rfl
    · rw [checkAndApproveToken_enough env token txs hb hal] at ha
      simp only [List.mem_singleton] at ha
      subst ha; rfl

lemma tokenGroupStep_actions (env : SendEnv) (opts : SendOptions) (token : String)
    (txs : List TokenTx) :
    ∀ a ∈ (tokenGroupStep env opts token txs).1, actionToken a = some token := by
  intro a ha
  have hcaa := checkAndApproveToken_actions env token txs
  unfold tokenGroupStep at ha
  rcases hc : checkAndApproveToken env token txs with ⟨tr, err⟩
  rw [hc] at ha
  have htr : ∀ b ∈ tr, actionToken b = some token := by
    intro b hb; apply hcaa; rw [hc]; exact hb
  cases err with
  | some e => exact htr a ha
  | none =>
    cases hgl : tokenGas env opts token with
    | error e => rw [hgl] at ha; exact htr a ha
    | ok gl =>
      rw [hgl] at ha
      cases hts : env.tokenSend token with
      | none =>
        rw [hts] at ha
        rcases List.mem_append.mp ha with h | h
        · exact htr a h
        · simp only [List.mem_singleton] at h; subst h; rfl
      | some r =>
        rw [hts] at ha
        rcases List.mem_append.mp ha with h | h
        · exact htr a h
        · simp only [List.mem_cons, List.mem_singleton, List.not_mem_nil, or_false] at h
          rcases h with rfl | rfl <;> rfl

lemma tokenGroupStep_balance_short (env : SendEnv) (opts : SendOptions) (token : String)
    (txs : List TokenTx) (h : env.tokenBalance token < groupTotal txs) :
    tokenGroupStep env opts token txs =
      ([.balanceCheck token], .error (.insufficientBalance token)) := by
  unfold tokenGroupStep
  rw [checkAndApproveToken_short env token txs h]

lemma tokenGas_ok (env : SendEnv) (opts : SendOptions) (token : String) (gl : Nat)
    (h : tokenGas env opts token = .ok gl) :
    (opts.tokenGasLimits token = none →
      ∃ g, env.tokenEstimateGas token = some g ∧ gl = g * 110 / 100) ∧
    (∀ g, opts.tokenGasLimits token = some g → gl = g) := by
  unfold tokenGas at h
  cases ho : opts.tokenGasLimits token with
  | some g =>
    simp only [ho, Except.ok.injEq] at h
    refine ⟨fun hc => absurd hc (by simp), fun g2 hg2 => ?_⟩
    simp only [Option.some.injEq] at hg2
    omega
  | none =>
    simp only [ho] at h
    refine ⟨fun _ => ?_, fun g2 hg2 => absurd hg2 (by simp)⟩
    cases he : env.tokenEstimateGas token with
    | none => simp [he] at h
    | some g =>
      simp only [he, Except.ok.injEq] at h
      exact ⟨g, rfl, h.symm⟩

lemma tokenGroupStep_transfer_mem (env : SendEnv) (opts : SendOptions) (token : String)
    (txs : List TokenTx) (gl : Nat)
    (h : Action.transferSubmit token gl ∈ (tokenGroupStep env opts token txs).1) :
    ¬ env.tokenBalance token < groupTotal txs ∧
    tokenGas env opts token = .ok gl ∧
    (env.tokenAllowance token < groupTotal txs →
      [Action.balanceCheck token, Action.approveSubmit token (groupTotal txs),
       Action.approveFinalize token, Action.transferSubmit token gl].Sublist
        (tokenGroupStep env opts token txs).1) ∧
    (¬ env.tokenAllowance token < groupTotal txs →
      [Action.balanceCheck token, Action.transferSubmit token gl].Sublist
        (tokenGroupStep env opts token txs).1) := by
  by_cases hb : env.tokenBalance token < groupTotal txs
  · rw [tokenGroupStep_balance_short env opts token txs hb] at h
    simp at h
  · by_cases hal : env.tokenAllowance token < groupTotal txs
    · by_cases hap : env.approveOk token = true
      · have hcaa := checkAndApproveToken_approve env token txs hb hal hap
        cases hgl : tokenGas env opts token with
        | error e =>
          have hstep : tokenGroupStep env opts token txs =
              ([.balanceCheck token, .approveSubmit token (groupTotal txs),
                .approveFinalize token], .error e) := by
            simp only [tokenGroupStep, hcaa, hgl]
          rw [hstep] at h
          simp at h
        | ok gl2 =>
          cases hts : env.tokenSend token with
          | none =>
            have hstep : tokenGroupStep env opts token txs =
                ([.balanceCheck token, .approveSubmit token (groupTotal txs),
                  .approveFinalize token] ++ [.transferSubmit token gl2],
                 .error (.networkError token)) := by
              simp only [tokenGroupStep, hcaa, hgl, hts]
            rw [hstep] at h
            simp only [List.mem_append, List.mem_cons, List.mem_singleton,
              List.not_mem_nil, or_false, Action.transferSubmit.injEq] at h
            rcases h with ⟨h | h | h⟩ | ⟨_, h⟩
            · exact absurd h (by simp)
            · exact absurd h (by simp)
            · exact absurd h (by simp)
            · subst h
              refine ⟨hb, rfl, fun _ => ?_, fun hc => absurd hal hc⟩
              rw [hstep]
              simp
          | some r =>
            have hstep : tokenGroupStep env opts token txs =
                ([.balanceCheck token, .approveSubmit token (groupTotal txs),
                  .approveFinalize token] ++
                 [.transferSubmit token gl2, .transferFinalize token],
                 .ok ⟨r.hash, r.blockNumber, r.gasUsed, r.statusOk, txs.length⟩) := by
              simp only [tokenGroupStep, hcaa, hgl, hts]
            rw [hstep] at h
            simp only [List.mem_append, List.mem_cons, List.mem_singleton,
              List.not_mem_nil, or_false, Action.transferSubmit.injEq] at h
            rcases h with ⟨h | h | h⟩ | ⟨_, h⟩ | h
            · exact absurd h (by simp)
            · exact absurd h (by simp)
            · exact absurd h (by simp)
            · subst h
              refine ⟨hb, rfl, fun _ => ?_, fun hc => absurd hal hc⟩
              rw [hstep]
              simp
            · exact absurd h (by simp)
      · have hcaa := checkAndApproveToken_approve_fail env token txs hb hal hap
        have hstep : tokenGroupStep env opts token txs =
            ([.balanceCheck token, .approveSubmit token (groupTotal txs)],
             .error (.networkError token)) := by
          simp only [tokenGroupStep, hcaa]
        rw [hstep] at h
        simp at h
    · have hcaa := checkAndApproveToken_enough env token txs hb hal
      cases hgl : tokenGas env opts token with
      | error e =>
        have hstep : tokenGroupStep env opts token txs = ([.balanceCheck token], .error e) := by
          simp only [tokenGroupStep, hcaa, hgl]
        rw [hstep] at h
        simp at h
      | ok gl2 =>
        cases hts : env.tokenSend token with
        | none =>
          have hstep : tokenGroupStep env opts token txs =
              ([.balanceCheck token] ++ [.transferSubmit token gl2],
               .error (.networkError token)) := by
            simp only [tokenGroupStep, hcaa, hgl, hts]
          rw [hstep] at h
          simp only [List.mem_append, List.mem_cons, List.mem_singleton,
            List.not_mem_nil, or_false, Action.transferSubmit.injEq] at h
          rcases h with h | ⟨_, h⟩
          · exact absurd h (by simp)
          · subst h
            refine ⟨hb, rfl, fun hc => absurd hc hal, fun _ => ?_⟩
            rw [hstep]
            simp
        | some r =>
          have hstep : tokenGroupStep env opts token txs =
              ([.balanceCheck token] ++
               [.transferSubmit token gl2, .transferFinalize token],
               .ok ⟨r.hash, r.blockNumber, r.gasUsed, r.statusOk, txs.length⟩) := by
            simp only [tokenGroupStep, hcaa, hgl, hts]
          rw [hstep] at h
          simp only [List.mem_append, List.mem_cons, List.mem_singleton,
            List.not_mem_nil, or_false, Action.transferSubmit.injEq] at h
          rcases h with h | ⟨_, h⟩ | h
          · exact absurd h (by simp)
          · subst h
            refine ⟨hb, rfl, fun hc => absurd hc hal, fun _ => ?_⟩
            rw [hstep]
            simp
          · exact absurd h (by simp)

lemma checkAndApproveToken_approve_mem (env : SendEnv) (token : String) (txs : List TokenTx)
    (amt : Int) (h : Action.approveSubmit token amt ∈ (checkAndApproveToken env token txs).1) :
    amt = groupTotal txs ∧ env.tokenAllowance token < groupTotal txs ∧
      ¬ env.tokenBalance token < groupTotal txs := by
  by_cases hb : env.tokenBalance token < groupTotal txs
  · rw [checkAndApproveToken_short env token txs hb] at h
    simp at h
  · by_cases hal : env.tokenAllowance token < groupTotal txs
    · by_cases hap : env.approveOk token = true
      · rw [checkAndApproveToken_approve env token txs hb hal hap] at h
        simp only [List.mem_cons, List.mem_singleton, List.not_mem_nil, or_false,
          Action.approveSubmit.injEq] at h
        rcases h with h | ⟨_, h⟩ | h
        · exact absurd h (by simp)
        · exact ⟨h, hal, hb⟩
        · exact absurd h (by simp)
      · rw [checkAndApproveToken_approve_fail env token txs hb hal hap] at h
        simp only [List.mem_cons, List.mem_singleton, List.not_mem_nil, or_false,
          Action.approveSubmit.injEq] at h
        rcases h with h | ⟨_, h⟩
        · exact absurd h (by simp)
        · exact ⟨h, hal, hb⟩
    · rw [checkAndApproveToken_enough env token txs hb hal] at h
      simp at h

lemma tokenGroupStep_trace_shape (env : SendEnv) (opts : SendOptions) (token : String)
    (txs : List TokenTx) :
    ∃ tail, (tokenGroupStep env opts token txs).1 =
        (checkAndApproveToken env token txs).1 ++ tail ∧
      ∀ b ∈ tail, actionToken b = some token ∧ ∀ amt, b ≠ Action.approveSubmit token amt := by
  unfold tokenGroupStep
  rcases hc : checkAndApproveToken env token txs with ⟨tr, err⟩
  cases err with
  | some e => exact ⟨[], by simp, by simp⟩
  | none =>
    cases tokenGas env opts token with
    | error e => exact ⟨[], by simp, by simp⟩
    | ok gl =>
      cases env.tokenSend token with
      | none =>
        refine ⟨[.transferSubmit token gl], by simp, ?_⟩
        intro b hb
        simp only [List.mem_singleton] at hb
        subst hb
        exact ⟨rfl, fun amt => by simp⟩
      | some r =>
        refine ⟨[.transferSubmit token gl, .transferFinalize token], by simp, ?_⟩
        intro b hb
        simp only [List.mem_cons, List.mem_singleton, List.not_mem_nil, or_false] at hb
        rcases hb with rfl | rfl
        · exact ⟨rfl, fun amt => by simp⟩
        · exact ⟨rfl, fun amt => by simp⟩

lemma tokenGroupStep_approve_mem (env : SendEnv) (opts : SendOptions) (token : String)
    (txs : List TokenTx) (amt : Int)
    (h : Action.approveSubmit token amt ∈ (tokenGroupStep env opts token txs).1) :
    amt = groupTotal txs ∧ env.tokenAllowance token < groupTotal txs ∧
      ¬ env.tokenBalance token < groupTotal txs := by
  obtain ⟨tail, heq, htail⟩ := tokenGroupStep_trace_shape env opts token txs
  rw [heq] at h
  rcases List.mem_append.mp h with h | h
  · exact checkAndApproveToken_approve_mem env token txs amt h
  · exact absurd rfl ((htail _ h).2 amt)

lemma ethGas_ok (env : SendEnv) (opts : SendOptions) (gl : Nat)
    (h : ethGas env opts = .ok gl) :
    (opts.ethGasLimit = none → ∃ g, env.ethEstimateGas = some g ∧ gl = g * 110 / 100) ∧
    (∀ g, opts.ethGasLimit = some g → gl = g) := by
  unfold ethGas at h
  cases ho : opts.ethGasLimit with
  | some g =>
    simp only [ho, Except.ok.injEq] at h
    refine ⟨fun hc => absurd hc (by simp), fun g2 hg2 => ?_⟩
    simp only [Option.some.injEq] at hg2
    omega
  | none =>
    simp only [ho] at h
    refine ⟨fun _ => ?_, fun g2 hg2 => absurd hg2 (by simp)⟩
    cases he : env.ethEstimateGas with
    | none => simp [he] at h
    | some g =>
      simp only [he, Except.ok.injEq] at h
      exact ⟨g, rfl, h.symm⟩

lemma processGroups_mem (env : SendEnv) (opts : SendOptions) :
    ∀ (gs : List (String × List TokenTx)) (a : Action),
      a ∈ (processGroups env opts gs).1 →
      ∃ token txs, (token, txs) ∈ gs ∧ txs ≠ [] ∧
        a ∈ (tokenGroupStep env opts token txs).1 ∧
        (tokenGroupStep env opts token txs).1.Sublist (processGroups env opts gs).1 := by
  intro gs
  induction gs with
  | nil => intro a ha; simp [processGroups] at ha
  | cons g rest ih =>
    intro a ha
    obtain ⟨token, txs⟩ := g
    by_cases hz : txs.length = 0
    · simp only [processGroups, if_pos hz] at ha ⊢
      obtain ⟨t2, x2, hmem, hne, hin, hsub⟩ := ih a ha
      exact ⟨t2, x2, List.mem_cons_of_mem _ hmem, hne, hin, hsub⟩
    · have hne0 : txs ≠ [] := fun hx => hz (by simp [hx])
      rcases hstep : tokenGroupStep env opts token txs with ⟨tr, res⟩
      cases res with
      | error e =>
        have hPG : processGroups env opts ((token, txs) :: rest) = (tr, .error e) := by
          simp only [processGroups, if_neg hz, hstep]
        rw [hPG] at ha ⊢
        refine ⟨token, txs, List.mem_cons_self _ _, hne0, ?_, ?_⟩
        · rw [hstep]; exact ha
        · rw [hstep]
      | ok rcd =>
        rcases hrest : processGroups env opts rest with ⟨tr2, res2⟩
        have hTr : (processGroups env opts ((token, txs) :: rest)).1 = tr ++ tr2 := by
          simp only [processGroups, if_neg hz, hstep, hrest]
          cases res2 <;> rfl
        rw [hTr] at ha ⊢
        rcases List.mem_append.mp ha with h | h
        · refine ⟨token, txs, List.mem_cons_self _ _, hne0, ?_, ?_⟩
          · rw [hstep]; exact h
          · rw [hstep]
            exact List.sublist_append_left tr tr2
        · obtain ⟨t2, x2, hmem, hne, hin, hsub⟩ := ih a (by rw [hrest]; exact h)
          rw [hrest] at hsub
          exact ⟨t2, x2, List.mem_cons_of_mem _ hmem, hne, hin,
            hsub.trans (List.sublist_append_right tr tr2)⟩

lemma processGroups_ok (env : SendEnv) (opts : SendOptions) :
    ∀ (gs : List (String × List TokenTx)) (rcds : List (String × TxRecord)),
      (processGroups env opts gs).2 = .ok rcds →
      ∀ token txs, (token, txs) ∈ gs → txs ≠ [] →
        ∃ rcd, (tokenGroupStep env opts token txs).2 = .ok rcd := by
  intro gs
  induction gs with
  | nil => intro rcds _ token txs hmem _; cases hmem
  | cons g rest ih =>
    intro rcds h token txs hmem hne
    obtain ⟨t0, x0⟩ := g
    by_cases hz : x0.length = 0
    · simp only [processGroups, if_pos hz] at h
      rcases List.mem_cons.mp hmem with he | hm
      · exfalso
        simp only [Prod.mk.injEq] at he
        apply hne
        have : txs.length = 0 := by rw [he.2]; exact hz
        exact List.length_eq_zero.mp this
      · exact ih rcds h token txs hm hne
    · rcases hstep : tokenGroupStep env opts t0 x0 with ⟨tr, res⟩
      cases res with
      | error e =>
        exfalso
        have hPG : processGroups env opts ((t0, x0) :: rest) = (tr, .error e) := by
          simp only [processGroups, if_neg hz, hstep]
        rw [hPG] at h
        exact absurd h (by simp)
      | ok rcd0 =>
        rcases hrest : processGroups env opts rest with ⟨tr2, res2⟩
        cases res2 with
        | error e =>
          exfalso
          have hPG : processGroups env opts ((t0, x0) :: rest) = (tr ++ tr2, .error e) := by
            simp only [processGroups, if_neg hz, hstep, hrest]
          rw [hPG] at h
          exact absurd h (by simp)
        | ok rcds2 =>
          rcases List.mem_cons.mp hmem with he | hm
          · simp only [Prod.mk.injEq] at he
            refine ⟨rcd0, ?_⟩
            rw [← he.1, ← he.2] at hstep
            rw [hstep]
          · exact ih rcds2 (by rw [hrest]) token txs hm hne

lemma assoc_nodup_eq {β : Type} : ∀ (l : List (String × β)) (k : String) (v1 v2 : β),
    (l.map Prod.fst).Nodup → (k, v1) ∈ l → (k, v2) ∈ l → v1 = v2 := by
  intro l
  induction l with
  | nil => intro k v1 v2 _ h; cases h
  | cons p rest ih =>
    intro k v1 v2 hnd h1 h2
    obtain ⟨k0, v0⟩ := p
    simp only [List.map_cons, List.nodup_cons] at hnd
    rcases List.mem_cons.mp h1 with e1 | m1
    · rcases List.mem_cons.mp h2 with e2 | m2
      · simp only [Prod.mk.injEq] at e1 e2
        exact e1.2.trans e2.2.symm
      · exfalso
        simp only [Prod.mk.injEq] at e1
        exact hnd.1 (e1.1 ▸ List.mem_map_of_mem Prod.fst m2)
    · rcases List.mem_cons.mp h2 with e2 | m2
      · exfalso
        simp only [Prod.mk.injEq] at e2
        exact hnd.1 (e2.1 ▸ List.mem_map_of_mem Prod.fst m1)
      · exact ih k v1 v2 hnd.2 m1 m2

lemma ethStep_actions (env : SendEnv) (opts : SendOptions) (st : BatchState) :
    ∀ a ∈ (ethStep env opts st).1, actionToken a = none := by
  intro a ha
  unfold ethStep at ha
  by_cases hz : st.eth.length = 0
  · rw [if_pos hz] at ha; simp at ha
  · rw [if_neg hz] at ha
    cases hgl : ethGas env opts with
    | error e => rw [hgl] at ha; simp at ha
    | ok gl =>
      rw [hgl] at ha
      cases hts : env.ethSend with
      | none =>
        rw [hts] at ha
        simp only [List.mem_singleton] at ha
        subst ha; rfl
      | some r =>
        rw [hts] at ha
        simp only [List.mem_cons, List.mem_singleton, List.not_mem_nil, or_false] at ha
        rcases ha with rfl | rfl <;> rfl

lemma ethStep_submit_mem (env : SendEnv) (opts : SendOptions) (st : BatchState) (gl : Nat)
    (h : Action.ethSubmit gl ∈ (ethStep env opts st).1) :
    ethGas env opts = .ok gl := by
  unfold ethStep at h
  by_cases hz : st.eth.length = 0
  · rw [if_pos hz] at h; simp at h
  · rw [if_neg hz] at h
    cases hgl : ethGas env opts with
    | error e => rw [hgl] at h; simp at h
    | ok gl2 =>
      rw [hgl] at h
      cases hts : env.ethSend with
      | none =>
        rw [hts] at h
        simp only [List.mem_singleton, Action.ethSubmit.injEq] at h
        rw [h]
      | some r =>
        rw [hts] at h
        simp only [List.mem_cons, List.mem_singleton, List.not_mem_nil, or_false,
          Action.ethSubmit.injEq] at h
        rcases h with h | h
        · rw [h]
        · exact absurd h (by simp)

lemma sendBatch_trace_mem (env : SendEnv) (opts : SendOptions) (st : BatchState) (a : Action)
    (ha : a ∈ (sendBatchTransaction env opts st).1) :
    a ∈ (ethStep env opts st).1 ∨ a ∈ (processGroups env opts st.erc20).1 := by
  unfold sendBatchTransaction at ha
  by_cases hz : st.eth.length + erc20Count st = 0
  · rw [if_pos hz] at ha; simp at ha
  · rw [if_neg hz] at ha
    rcases hE : ethStep env opts st with ⟨tr1, res1⟩
    rw [hE] at ha
    cases res1 with
    | error e => left; exact ha
    | ok o =>
      rcases hP : processGroups env opts st.erc20 with ⟨tr2, res2⟩
      rw [hP] at ha
      have ha2 : a ∈ tr1 ++ tr2 := by cases res2 <;> simpa using ha
      rcases List.mem_append.mp ha2 with h | h
      · left; exact h
      · right; exact h

lemma sendBatch_token_action (env : SendEnv) (opts : SendOptions) (st : BatchState)
    (a : Action) (t : String)
    (ha : a ∈ (sendBatchTransaction env opts st).1) (ht : actionToken a = some t) :
    ∃ txs, (t, txs) ∈ st.erc20 ∧ txs ≠ [] ∧
      a ∈ (tokenGroupStep env opts t txs).1 ∧
      (tokenGroupStep env opts t txs).1.Sublist (sendBatchTransaction env opts st).1 := by
  unfold sendBatchTransaction at ha
  by_cases hz : st.eth.length + erc20Count st = 0
  · rw [if_pos hz] at ha; simp at ha
  · rw [if_neg hz] at ha
    rcases hE : ethStep env opts st with ⟨tr1, res1⟩
    rw [hE] at ha
    cases res1 with
    | error e =>
      exfalso
      have := ethStep_actions env opts st a (by rw [hE]; exact ha)
      rw [ht] at this
      exact absurd this (by simp)
    | ok o =>
      rcases hP : processGroups env opts st.erc20 with ⟨tr2, res2⟩
      rw [hP] at ha
      have hTr : (sendBatchTransaction env opts st).1 = tr1 ++ tr2 := by
        unfold sendBatchTransaction
        rw [if_neg hz, hE, hP]
        cases res2 <;> rfl
      have ha2 : a ∈ tr1 ++ tr2 := by cases res2 <;> simpa using ha
      have hmem2 : a ∈ tr2 := by
        rcases List.mem_append.mp ha2 with h | h
        · exfalso
          have := ethStep_actions env opts st a (by rw [hE]; exact h)
          rw [ht] at this
          exact absurd this (by simp)
        · exact h
      obtain ⟨token, txs, hmem, hne, hin, hsub⟩ :=
        processGroups_mem env opts st.erc20 a (by rw [hP]; exact hmem2)
      have hat : actionToken a = some token := tokenGroupStep_actions env opts token txs a hin
      have htok : token = t := by
        rw [ht] at hat
        exact (Option.some.inj hat).symm
      subst htok
      refine ⟨txs, hmem, hne, hin, ?_⟩
      rw [hTr]
      rw [hP] at hsub
      exact hsub.trans (List.sublist_append_right tr1 tr2)

lemma sendBatch_ok_inv (env : SendEnv) (opts : SendOptions) (st : BatchState)
    (res : SendResults) (h : (sendBatchTransaction env opts st).2 = .ok res) :
    st.eth.length + erc20Count st ≠ 0 ∧
    (∃ o, (ethStep env opts st).2 = .ok o) ∧
    ∃ rcds, (processGroups env opts st.erc20).2 = .ok rcds := by
  unfold sendBatchTransaction at h
  by_cases hz : st.eth.length + erc20Count st = 0
  · rw [if_pos hz] at h; simp at h
  · rw [if_neg hz] at h
    rcases hE : ethStep env opts st with ⟨tr1, res1⟩
    rw [hE] at h
    cases res1 with
    | error e => simp at h
    | ok o =>
      rcases hP : processGroups env opts st.erc20 with ⟨tr2, res2⟩
      rw [hP] at h
      cases res2 with
      | error e => simp at h
      | ok rcds => exact ⟨hz, ⟨o, rfl⟩, ⟨rcds, rfl⟩⟩

lemma sendBatch_eth_ok_trace (env : SendEnv) (opts : SendOptions) (st : BatchState)
    (hz : st.eth.length + erc20Count st ≠ 0)
    (o : Option TxRecord) (hE : (ethStep env opts st).2 = .ok o) :
    (sendBatchTransaction env opts st).1 =
      (ethStep env opts st).1 ++ (processGroups env opts st.erc20).1 ∧
    (∀ e, (processGroups env opts st.erc20).2 = .error e →
      (sendBatchTransaction env opts st).2 = .error (.sendFailed e)) := by
  rcases hE2 : ethStep env opts st with ⟨tr1, res1⟩
  rw [hE2] at hE
  cases res1 with
  | error e => exact absurd hE (by simp)
  | ok o2 =>
    rcases hP : processGroups env opts st.erc20 with ⟨tr2, res2⟩
    constructor
    · unfold sendBatchTransaction
      rw [if_neg hz, hE2, hP]
      cases res2 <;> rfl
    · intro e hPe
      have hres : res2 = .error e := hPe
      subst hres
      unfold sendBatchTransaction
      rw [if_neg hz, hE2, hP]

/-! Concrete scenarios used by counterexamples and witnesses. -/

/-- A finalized successful receipt. -/
def rcptA : Receipt := ⟨"0xhash1", 1, 90, true⟩

/-- Another finalized successful receipt. -/
def rcptB : Receipt := ⟨"0xhash2", 2, 80, true⟩

/-- An environment where every network interaction succeeds: simulated
gas 101 everywhere, ample balances, zero allowances (so approvals are
needed). -/
def envA : SendEnv :=
  { feeGasPrice := 7
    ethEstimateGas := some 101
    ethSend := some rcptA
    tokenBalance := fun _ => 1000
    tokenAllowance := fun _ => 0
    approveOk := fun _ => true
    tokenEstimateGas := fun _ => some 101
    tokenSend := fun _ => some rcptB }

/-- Like `envA` but with no token balance anywhere. -/
def envNoBalance : SendEnv := { envA with tokenBalance := fun _ => 0 }

/-- Like `envA` but with ample allowances and balance only for `addrT`. -/
def envTwoGroups : SendEnv :=
  { envA with
    tokenAllowance := fun _ => 1000
    tokenBalance := fun t => if t = addrT then 1000 else 0 }

/-- One native entry of 5 wei. -/
def stEth1 : BatchState := ⟨[⟨addrB, 5⟩], []⟩

/-- One token group with a single transfer of 7 base units. -/
def stTok1 : BatchState := ⟨[], [(addrT, [⟨addrB, 7, 18⟩])]⟩

/-- One native entry and one token group. -/
def stMixed : BatchState := ⟨[⟨addrB, 5⟩], [(addrT, [⟨addrB, 7, 18⟩])]⟩

/-- One native entry and two token groups; only the first token has
balance under `envTwoGroups`. -/
def stTwoGroups : BatchState :=
  ⟨[⟨addrB, 5⟩], [(addrT, [⟨addrB, 7, 18⟩]), (addrB, [⟨addrT, 9, 18⟩])]⟩

/-! The claims about the client. -/

/-- C1 counterexample: with one native entry and one token group whose
balance check fails, the native group is submitted and finalized (its
finalization is in the trace), but `sendBatchTransaction` throws a
wrapped error that carries only the inner failure — by the result type
the thrown error contains no receipts, so the caller cannot recover the
native receipt, contrary to the claim that completed groups' receipts
are communicated along with the propagated failure. -/
theorem sendBatch_receipts_lost_cex :
    (sendBatchTransaction envNoBalance noOptions stMixed).2 =
      .error (.sendFailed (.insufficientBalance addrT)) ∧
    Action.ethFinalize ∈ (sendBatchTransaction envNoBalance noOptions stMixed).1 ∧
    thrown (sendBatchTransaction envNoBalance noOptions stMixed).2 = true := by
  decide

/-- C1 (amended): when the native group finalizes and a later token
group's processing fails, `sendBatchTransaction` propagates the failure
as a wrapped error; no success result is returned, so the receipts
recorded so far are discarded (the thrown error carries only the inner
failure, never receipts); the earlier groups are not rolled back — every
observable step of the native group, its finalization included, remains
in the trace (as a prefix), and no compensating action exists. -/
theorem sendBatch_failure_keeps_finalized_groups (env : SendEnv) (opts : SendOptions)
    (st : BatchState) (o : Option TxRecord) (e : JsErr)
    (hz : st.eth.length + erc20Count st ≠ 0)
    (hE : (ethStep env opts st).2 = .ok o)
    (hfail : (processGroups env opts st.erc20).2 = .error e) :
    (sendBatchTransaction env opts st).2 = .error (.sendFailed e) ∧
    (∀ r : SendResults, (sendBatchTransaction env opts st).2 ≠ .ok r) ∧
    (ethStep env opts st).1.Sublist (sendBatchTransaction env opts st).1 ∧
    (Action.ethFinalize ∈ (ethStep env opts st).1 →
      Action.ethFinalize ∈ (sendBatchTransaction env opts st).1) := by
  obtain ⟨hTr, hErr⟩ := sendBatch_eth_ok_trace env opts st hz o hE
  refine ⟨hErr e hfail, ?_, ?_, ?_⟩
  · intro r hc
    rw [hErr e hfail] at hc
    exact absurd hc (by simp)
  · rw [hTr]
    exact List.sublist_append_left _ _
  · intro hm
    rw [hTr]
    exact List.mem_append.mpr (Or.inl hm)

/-- Witness for `sendBatch_failure_keeps_finalized_groups`: with two
token groups, the second one failing its balance check, the result is
the wrapped failure while the trace retains the native finalization and
the first token group's finalization. -/
theorem sendBatch_failure_keeps_finalized_groups_witness :
    (sendBatchTransaction envTwoGroups noOptions stTwoGroups).2 =
      .error (.sendFailed (.insufficientBalance addrB)) ∧
    Action.ethFinalize ∈ (sendBatchTransaction envTwoGroups noOptions stTwoGroups).1 ∧
    Action.transferFinalize addrT ∈ (sendBatchTransaction envTwoGroups noOptions stTwoGroups).1 := by
  have h := sendBatch_failure_keeps_finalized_groups envTwoGroups noOptions stTwoGroups
    (some ⟨"0xhash1", 1, 90, true, 1⟩) (.insufficientBalance addrB)
    (by decide) (by decide) (by decide)
  exact ⟨h.1, h.2.2.2 (by decide), by decide⟩

/-- C3: for every token group of the batch (under distinct group keys, as
the JS object guarantees): when the signer's balance is below the group's
required total, no transfer for that token is ever submitted and the
whole submission cannot succeed (it throws `InsufficientBalance`); when a
transfer for that token is submitted, the balance check passed and — if
the current allowance was below the required total — an approval for
exactly the required total was submitted and finalized before the
transfer submission, in that order; and every approval submitted is for
exactly the group's required total and only happens when the allowance is
short (never unlimited). -/
theorem approve_before_transfer (env : SendEnv) (opts : SendOptions) (st : BatchState)
    (token : String) (txs : List TokenTx)
    (hkeys : (st.erc20.map Prod.fst).Nodup)
    (hmem : (token, txs) ∈ st.erc20) (hne : txs ≠ []) :
    (env.tokenBalance token < groupTotal txs →
      tokenGroupStep env opts token txs =
        ([Action.balanceCheck token], .error (.insufficientBalance token)) ∧
      (∀ gl, Action.transferSubmit token gl ∉ (sendBatchTransaction env opts st).1) ∧
      (∀ r : SendResults, (sendBatchTransaction env opts st).2 ≠ .ok r)) ∧
    (∀ gl, Action.transferSubmit token gl ∈ (sendBatchTransaction env opts st).1 →
      ¬ env.tokenBalance token < groupTotal txs ∧
      (env.tokenAllowance token < groupTotal txs →
        [Action.balanceCheck token, Action.approveSubmit token (groupTotal txs),
         Action.approveFinalize token, Action.transferSubmit token gl].Sublist
          (sendBatchTransaction env opts st).1)) ∧
    (∀ amt, Action.approveSubmit token amt ∈ (sendBatchTransaction env opts st).1 →
      amt = groupTotal txs ∧ env.tokenAllowance token < groupTotal txs) := by
  refine ⟨?_, ?_, ?_⟩
  · intro hbal
    refine ⟨tokenGroupStep_balance_short env opts token txs hbal, ?_, ?_⟩
    · intro gl hglmem
      obtain ⟨txs2, hmem2, hne2, hin2, hsub2⟩ :=
        sendBatch_token_action env opts st _ token hglmem rfl
      have htxs : txs2 = txs := assoc_nodup_eq st.erc20 token txs2 txs hkeys hmem2 hmem
      subst htxs
      exact absurd hbal (tokenGroupStep_transfer_mem env opts token txs2 gl hin2).1
    · intro r hok
      obtain ⟨_, ⟨o, hEo⟩, ⟨rcds, hP⟩⟩ := sendBatch_ok_inv env opts st r hok
      obtain ⟨rcd, hstep⟩ := processGroups_ok env opts st.erc20 rcds hP token txs hmem hne
      rw [tokenGroupStep_balance_short env opts token txs hbal] at hstep
      exact absurd hstep (by simp)
  · intro gl hglmem
    obtain ⟨txs2, hmem2, hne2, hin2, hsub2⟩ :=
      sendBatch_token_action env opts st _ token hglmem rfl
    have htxs : txs2 = txs := assoc_nodup_eq st.erc20 token txs2 txs hkeys hmem2 hmem
    subst htxs
    obtain ⟨hb, hglok, hsubA, hsubB⟩ := tokenGroupStep_transfer_mem env opts token txs2 gl hin2
    exact ⟨hb, fun hal => (hsubA hal).trans hsub2⟩
  · intro amt hamem
    obtain ⟨txs2, hmem2, hne2, hin2, hsub2⟩ :=
      sendBatch_token_action env opts st _ token hamem rfl
    have htxs : txs2 = txs := assoc_nodup_eq st.erc20 token txs2 txs hkeys hmem2 hmem
    subst htxs
    obtain ⟨h1, h2, h3⟩ := tokenGroupStep_approve_mem env opts token txs2 amt hin2
    exact ⟨h1, h2⟩

/-- Witness for `approve_before_transfer`: the concrete submission of one
token group with a short allowance produces, in order, the balance check,
an approval for exactly the required total (7), its finalization, and
only then the transfer submission. -/
theorem approve_before_transfer_witness :
    [Action.balanceCheck addrT, Action.approveSubmit addrT 7, Action.approveFinalize addrT,
     Action.transferSubmit addrT 111].Sublist
      (sendBatchTransaction envA noOptions stTok1).1 := by
  have h := approve_before_transfer envA noOptions stTok1 addrT [⟨addrB, 7, 18⟩]
    (by decide) (by decide) (by decide)
  exact (h.2.1 111 (by decide)).2 (by decide)

/-- C4 (amended): the cost-with-margin figure of `estimateGas` and the
default gas budget of `sendBatchTransaction` (native and per-token) are
`(estimate * 110n) / 100n`, the FLOOR of the simulated cost times 1.10 —
equal to `g + g / 10` — not the ceiling the specification states. -/
theorem gas_margin_floor (env : SendEnv) (opts : SendOptions) (st : BatchState)
    (gpo : Option Nat) :
    (∀ g r est, env.ethEstimateGas = some g → estimateGas env st gpo = .ok r →
      r.ethEstimate = some est → est.gasEstimate = g ∧ est.gasWithBuffer = g + g / 10) ∧
    (∀ gl, opts.ethGasLimit = none →
      Action.ethSubmit gl ∈ (sendBatchTransaction env opts st).1 →
      ∃ g, env.ethEstimateGas = some g ∧ gl = g + g / 10) ∧
    (∀ t gl, opts.tokenGasLimits t = none →
      Action.transferSubmit t gl ∈ (sendBatchTransaction env opts st).1 →
      ∃ g, env.tokenEstimateGas t = some g ∧ gl = g + g / 10) := by
  refine ⟨?_, ?_, ?_⟩
  · intro g r est hg hr hest
    simp only [estimateGas] at hr
    by_cases hz : st.eth.length + erc20Count st = 0
    · rw [if_pos hz] at hr
      exact absurd hr (by simp)
    · rw [if_neg hz] at hr
      by_cases hn : st.eth.length ≠ 0
      · rw [if_pos hn] at hr
        simp only [hg, Except.ok.injEq] at hr
        rw [← hr] at hest
        simp only [Option.some.injEq] at hest
        rw [← hest]
        exact ⟨rfl, mul110_div100 g⟩
      · rw [if_neg hn] at hr
        simp only [Except.ok.injEq] at hr
        rw [← hr] at hest
        exact absurd hest (by simp)
  · intro gl ho hmem
    rcases sendBatch_trace_mem env opts st _ hmem with h | h
    · have hg := ethStep_submit_mem env opts st gl h
      obtain ⟨hnone, _⟩ := ethGas_ok env opts gl hg
      obtain ⟨g, hg2, hgl⟩ := hnone ho
      exact ⟨g, hg2, by rw [hgl]; exact mul110_div100 g⟩
    · exfalso
      obtain ⟨token, txs, _, _, hin, _⟩ := processGroups_mem env opts st.erc20 _ h
      have := tokenGroupStep_actions env opts token txs _ hin
      simp [actionToken] at this
  · intro t gl ho hmem
    obtain ⟨txs, hmem2, hne2, hin2, _⟩ := sendBatch_token_action env opts st _ t hmem rfl
    obtain ⟨_, hglok, _, _⟩ := tokenGroupStep_transfer_mem env opts t txs gl hin2
    obtain ⟨hnone, _⟩ := tokenGas_ok env opts t gl hglok
    obtain ⟨g, hg2, hgl⟩ := hnone ho
    exact ⟨g, hg2, by rw [hgl]; exact mul110_div100 g⟩

/-- C4 counterexample: at simulated cost 101 the code's figure is 111 =
floor(101 * 1.10), both in `estimateGas` and as the submitted gas limit,
whereas the claimed ceiling is 112. -/
theorem gasWithBuffer_not_ceil_cex :
    estimateGas envA stEth1 none = .ok ⟨1, 0, 1, 7, some ⟨101, 111, 5⟩⟩ ∧
    Action.ethSubmit 111 ∈ (sendBatchTransaction envA noOptions stEth1).1 ∧
    Action.ethSubmit (ceilTimes110 101) ∉ (sendBatchTransaction envA noOptions stEth1).1 ∧
    ceilTimes110 101 = 112 ∧ (111 : Nat) ≠ 112 := by
  decide

/-- Witness for `gas_margin_floor`: the concrete submitted gas limits for
the native group and the token group, 111, equal the floor formula
applied to the simulated cost 101. -/
theorem gas_margin_floor_witness :
    (∃ g, envA.ethEstimateGas = some g ∧ 111 = g + g / 10) ∧
    (∃ g, envA.tokenEstimateGas addrT = some g ∧ 111 = g + g / 10) := by
  have h := gas_margin_floor envA noOptions stMixed none
  exact ⟨h.2.1 111 rfl (by decide), h.2.2 addrT 111 rfl (by decide)⟩

/-- C9: with an empty batch, `estimateGas` fails with the empty-batch
error and `sendBatchTransaction` fails with its empty-batch error —
neither returns a result (no zero-cost estimate, no empty receipt set);
with a non-empty batch this failure is never produced. -/
theorem emptyBatch_behavior (env : SendEnv) (opts : SendOptions) (st : BatchState)
    (gpo : Option Nat) :
    (st.eth.length + erc20Count st = 0 →
      estimateGas env st gpo = .error .emptyEstimate ∧
      (sendBatchTransaction env opts st).2 = .error .emptySend) ∧
    (st.eth.length + erc20Count st ≠ 0 →
      estimateGas env st gpo ≠ .error .emptyEstimate ∧
      (sendBatchTransaction env opts st).2 ≠ .error .emptySend) := by
  constructor
  · intro h
    constructor
    · simp only [estimateGas]
      rw [if_pos h]
    · simp only [sendBatchTransaction]
      rw [if_pos h]
  · intro h
    constructor
    · simp only [estimateGas]
      rw [if_neg h]
      by_cases h1 : st.eth.length ≠ 0
      · rw [if_pos h1]
        cases env.ethEstimateGas <;> simp
      · rw [if_neg h1]
        simp
    · simp only [sendBatchTransaction]
      rw [if_neg h]
      rcases hE : ethStep env opts st with ⟨tr1, res1⟩
      cases res1 with
      | error e => simp
      | ok o =>
        rcases hP : processGroups env opts st.erc20 with ⟨tr2, res2⟩
        cases res2 <;> simp

/-- Witness for `emptyBatch_behavior`: the empty batch fails with the
empty-batch errors, and a non-empty batch does not produce them. -/
theorem emptyBatch_behavior_witness :
    (estimateGas envA emptyBatch none = .error .emptyEstimate ∧
      (sendBatchTransaction envA noOptions emptyBatch).2 = .error .emptySend) ∧
    estimateGas envA stEth1 none ≠ .error .emptyEstimate := by
  exact ⟨(emptyBatch_behavior envA noOptions emptyBatch none).1 (by decide),
    ((emptyBatch_behavior envA noOptions stEth1 none).2 (by decide)).1⟩

/-- C5 (amended): `addEthTransaction` never mutates the state when it
throws; `addErc20Transaction` leaves the state unchanged when either
address is invalid, but when both addresses are valid and the amount is
malformed it throws AFTER having created the token group — so for a
previously unseen token key the state is left with one extra empty group
(entries are never partially appended). -/
theorem add_ops_error_state (cs : String → Bool) (st : BatchState)
    (tok dest value : String) (decimals : Nat) :
    ((addEthTransaction cs st dest value).1.isSome →
      (addEthTransaction cs st dest value).2 = st) ∧
    (isAddress cs tok = false →
      addErc20Transaction cs st tok dest value decimals = (some (.invalidToken tok), st)) ∧
    (isAddress cs tok = true → isAddress cs dest = false →
      addErc20Transaction cs st tok dest value decimals =
        (some (.invalidRecipient dest), st)) ∧
    (isAddress cs tok = true → isAddress cs dest = true →
      parseUnits value decimals = none →
      (addErc20Transaction cs st tok dest value decimals).1 = some .addErc20Error ∧
      (addErc20Transaction cs st tok dest value decimals).2 =
        (if (findGroup st.erc20 tok).isSome then st
         else { st with erc20 := st.erc20 ++ [(tok, [])] })) := by
  refine ⟨?_, ?_, ?_, ?_⟩
  · intro h
    unfold addEthTransaction at h ⊢
    by_cases ha : isAddress cs dest
    · rw [ha] at h ⊢
      simp only [Bool.not_true, Bool.false_eq_true, if_false] at h ⊢
      cases hp : parseEther value with
      | none => rfl
      | some v => simp [hp] at h
    · simp only [Bool.not_eq_true] at ha
      rw [ha] at h ⊢
      rfl
  · intro h
    unfold addErc20Transaction
    rw [h]
    rfl
  · intro h1 h2
    unfold addErc20Transaction
    rw [h1, h2]
    rfl
  · intro h1 h2 hp
    unfold addErc20Transaction
    rw [h1, h2]
    simp [hp]

/-- C5 counterexample: adding a token entry with two valid addresses but
a malformed amount throws AND mutates the state — a fresh empty token
group for `addrT` is left behind, so the set of token-group keys changed,
contrary to the claim that failing adds never partially mutate state. -/
theorem addErc20_mutation_on_error_cex :
    (addErc20Transaction (fun _ => false) emptyBatch addrT addrB "x" 18).1.isSome = true ∧
    (addErc20Transaction (fun _ => false) emptyBatch addrT addrB "x" 18).2 ≠ emptyBatch ∧
    (addErc20Transaction (fun _ => false) emptyBatch addrT addrB "x" 18).2 =
      ⟨[], [(addrT, [])]⟩ := by
  decide

/-- Witness for `add_ops_error_state`: a failing native add leaves the
state untouched; a failing token add with a malformed amount throws. -/
theorem add_ops_error_state_witness :
    (addEthTransaction (fun _ => false) emptyBatch "nope" "1").2 = emptyBatch ∧
    (addErc20Transaction (fun _ => false) emptyBatch addrT addrB "x" 18).1 =
      some .addErc20Error := by
  refine ⟨?_, ?_⟩
  · exact (add_ops_error_state (fun _ => false) emptyBatch addrT "nope" "1" 18).1 (by decide)
  · exact ((add_ops_error_state (fun _ => false) emptyBatch addrT addrB "x" 18).2.2.2
      (by decide) (by decide) (by decide)).1

/-- C6 (amended): `getBatchStatus` reports the unique-recipient count as
the cardinality of the set of recipient address STRINGS across native and
token entries — exact string identity, with no case normalization. -/
theorem uniqueRecipients_exact_string_count (st : BatchState) :
    (getBatchStatus st).uniqueRecipients = (allRecipients st).toFinset.card := by
  simp only [getBatchStatus]
  exact (List.card_toFinset (allRecipients st)).symm

/-- The state after adding the same recipient twice, in all-lowercase and
all-uppercase form. -/
def stCase1 : BatchState := (addEthTransaction (fun _ => false) emptyBatch addrLowerA "1").2

/-- See `stCase1`. -/
def stCase2 : BatchState := (addEthTransaction (fun _ => false) stCase1 addrUpperA "1").2

/-- C6 counterexample: both the all-lowercase and the all-uppercase form
of the same address are accepted by validation (no checksum is consulted
for single-case bodies), and after adding one native entry to each,
`getBatchStatus` reports 2 unique recipients while the case-normalized
union of the claim has size 1. -/
theorem uniqueRecipients_case_sensitive_cex :
    (addEthTransaction (fun _ => false) emptyBatch addrLowerA "1").1 = none ∧
    (addEthTransaction (fun _ => false) stCase1 addrUpperA "1").1 = none ∧
    (getBatchStatus stCase2).uniqueRecipients = 2 ∧
    uniqueRecipientsCaseNormalized stCase2 = 1 := by
  decide

end BatchClient
